import Mathlib

/-!
Verification development for the Kalorifit food-detection-bot core:
a shallow embedding, in Lean 4, of the text normalizer, structured-field
extractor, product-catalog ranking (`src/core/product_catalog.py`,
`src/main.py`) and the scan-record store (`src/data_logger.py`), together
with theorems settling the specified properties.

Modelling conventions:
* Python `str` is modelled as Lean `String`, processed as `List Char`.
* Python floats are modelled as exact rationals (`ℚ`); `round(x, 4)` is
  modelled by `round4` (round-half-to-even, as Python's `round`).
* Python regular expressions used by the code are implemented directly as
  character-list functions with the same matching semantics on the
  alphabet that actually reaches them (ASCII word characters; the `\w`
  class is modelled by ASCII alphanumerics plus underscore, `str.lower`
  by ASCII lowercasing — the confusable characters æ/ø/å are transliterated
  away before these classes matter).
* Python dicts with a fixed key set are modelled as structures; a missing
  key is an `Option` field holding `none`.
* Effects (file system, uuid, clock) are lifted to explicit parameters or
  explicit store-passing.
-/

/- Mathlib marks the core `Rat` arithmetic irreducible; the concrete
evaluations below (counterexamples and witnesses) need it reducible for
`decide`. -/
attribute [local semireducible] Rat.add Rat.sub Rat.mul Rat.inv

/-! ### Character classes -/

/-- Python whitespace (`str.split`, `str.strip`, regex `\s`) for the ASCII
range: space, tab, newline, carriage return, vertical tab, form feed. -/
def pyIsSpace (c : Char) : Bool :=
  c = ' ' || c = '\t' || c = '\n' || c = '\x0d' || c = '\x0b' || c = '\x0c'

/-- Regex `\w` (word character) over the ASCII range: alphanumeric or
underscore. -/
def isWordChar (c : Char) : Bool :=
  c.isAlphanum || c = '_'

/-- Regex class `[a-z]`. -/
def isLowerAlpha (c : Char) : Bool :=
  'a' ≤ c && c ≤ 'z'

/-! ### Generic string helpers (Python `str` methods on `List Char`) -/

/-- `str.strip()`: drop whitespace from both ends. -/
def pyStrip (l : List Char) : List Char :=
  ((l.dropWhile pyIsSpace).reverse.dropWhile pyIsSpace).reverse

/-- `str.lower()` (ASCII). -/
def lowerList (l : List Char) : List Char :=
  l.map Char.toLower

theorem dropWhile_length_le (p : α → Bool) (l : List α) :
    (l.dropWhile p).length ≤ l.length := by
  induction l with
  | nil => simp
  | cons a t ih =>
    by_cases h : p a
    · simp only [List.dropWhile_cons, h, if_true, List.length_cons]
      omega
    · simp [List.dropWhile_cons, h]

/-- `str.split(sep)` for a single-character separator: split at every
occurrence, keeping empty segments. -/
def splitChar (sep : Char) : List Char → List (List Char)
  | [] => [[]]
  | c :: t =>
    match splitChar sep t with
    | [] => [[c]]
    | w :: ws => if c = sep then [] :: w :: ws else (c :: w) :: ws

/-- Helper for `wordsOf`: `acc` is the current word, reversed. -/
def wordsOfAux : List Char → List Char → List (List Char)
  | [], acc => if acc.isEmpty then [] else [acc.reverse]
  | c :: t, acc =>
    if pyIsSpace c then
      if acc.isEmpty then wordsOfAux t [] else acc.reverse :: wordsOfAux t []
    else wordsOfAux t (c :: acc)

/-- The words of a string: `str.split()` with no argument — split on
whitespace runs, discarding empty segments. -/
def wordsOf (l : List Char) : List (List Char) :=
  wordsOfAux l []

/-- `wordsOfAux` with a non-empty pending word emits that word extended by
the leading non-space run. -/
theorem wordsOfAux_acc (l : List Char) : ∀ acc : List Char, ¬acc.isEmpty →
    wordsOfAux l acc =
      (acc.reverse ++ l.takeWhile (fun d => !pyIsSpace d)) ::
        wordsOfAux (l.dropWhile (fun d => !pyIsSpace d)) [] := by
  induction l with
  | nil =>
    intro acc hacc
    simp [wordsOfAux, hacc, List.takeWhile, List.dropWhile]
  | cons c t ih =>
    intro acc hacc
    by_cases hc : pyIsSpace c
    · simp [wordsOfAux, hc, hacc, List.takeWhile_cons, List.dropWhile_cons]
    · simp only [wordsOfAux, hc, if_false, List.takeWhile_cons, List.dropWhile_cons,
        Bool.not_eq_true]
      rw [ih (c :: acc) (by simp)]
      simp [hc]

/-- The `str.split()` recurrence. -/
theorem wordsOf_cons (c : Char) (rest : List Char) :
    wordsOf (c :: rest) =
      if pyIsSpace c then wordsOf rest
      else (c :: rest.takeWhile (fun d => !pyIsSpace d)) ::
        wordsOf (rest.dropWhile (fun d => !pyIsSpace d)) := by
  unfold wordsOf
  by_cases hc : pyIsSpace c
  · simp [wordsOfAux, hc]
  · rw [show wordsOfAux (c :: rest) [] = wordsOfAux rest [c] by simp [wordsOfAux, hc]]
    rw [wordsOfAux_acc rest [c] (by simp)]
    simp [hc]

/-- Join words with single spaces (`' '.join(...)`). -/
def joinSpace : List (List Char) → List Char
  | [] => []
  | [w] => w
  | w :: ws => w ++ ' ' :: joinSpace ws

/-- `' '.join(s.split())`: collapse whitespace runs to single spaces and
trim both ends.  Also models `re.sub(r'\s+', ' ', s).strip()`, which
computes the same string. -/
def collapse (l : List Char) : List Char :=
  joinSpace (wordsOf l)

/-- Helper for `replaceStr`: `n` counts characters still to be skipped
from a match that was already replaced. -/
def replaceGo (pat rep : List Char) : List Char → ℕ → List Char
  | [], _ => []
  | _ :: t, n + 1 => replaceGo pat rep t n
  | c :: t, 0 =>
    if ¬pat.isEmpty ∧ pat.isPrefixOf (c :: t) then
      rep ++ replaceGo pat rep t (pat.length - 1)
    else c :: replaceGo pat rep t 0

/-- `s.replace(pat, rep)` for a non-empty pattern: replace non-overlapping
occurrences left to right, scanning past each replacement.  (The source
only ever calls `replace` with non-empty literal patterns; an empty
pattern is treated as identity here.) -/
def replaceStr (pat rep : List Char) (s : List Char) : List Char :=
  replaceGo pat rep s 0

/-- Skipping `n` characters is dropping them. -/
theorem replaceGo_skip (pat rep : List Char) :
    ∀ (t : List Char) (n : ℕ), replaceGo pat rep t n = replaceGo pat rep (t.drop n) 0 := by
  intro t
  induction t with
  | nil => intro n; cases n <;> rfl
  | cons c t ih =>
    intro n
    cases n with
    | zero => rfl
    | succ m => rw [show replaceGo pat rep (c :: t) (m + 1) = replaceGo pat rep t m from rfl,
        ih m, List.drop_succ_cons]

/-- The `str.replace` recurrence. -/
theorem replaceStr_cons (pat rep : List Char) (c : Char) (t : List Char) :
    replaceStr pat rep (c :: t) =
      if ¬pat.isEmpty ∧ pat.isPrefixOf (c :: t) then
        rep ++ replaceStr pat rep ((c :: t).drop pat.length)
      else c :: replaceStr pat rep t := by
  unfold replaceStr
  rw [show replaceGo pat rep (c :: t) 0 =
    if ¬pat.isEmpty ∧ pat.isPrefixOf (c :: t) then
      rep ++ replaceGo pat rep t (pat.length - 1)
    else c :: replaceGo pat rep t 0 from rfl]
  by_cases h : ¬pat.isEmpty ∧ pat.isPrefixOf (c :: t)
  · rw [if_pos h, if_pos h, replaceGo_skip]
    have hlen : 0 < pat.length := by
      rcases pat with _ | ⟨p, ps⟩
      · simp at h
      · simp
    congr 1
    have : (c :: t).drop pat.length = t.drop (pat.length - 1) := by
      rcases pat with _ | ⟨p, ps⟩
      · simp at h
      · simp
    rw [this]
  · rw [if_neg h, if_neg h]

/-- Python `pat in s` (substring containment). -/
def containsSub (pat : List Char) : List Char → Bool
  | [] => pat.isEmpty
  | c :: t => pat.isPrefixOf (c :: t) || containsSub pat t

/-! ### `_normalize_text` (src/core/product_catalog.py) -/

/-- The chained confusable-character replacements
`.replace('æ','ae').replace('ø','o').replace('å','a').replace('0','o').replace('|','l')`.
Since every pattern is a single character and no replacement output
contains a later pattern, the chain equals one character-wise expansion. -/
def replaceChars (l : List Char) : List Char :=
  l.flatMap fun c =>
    if c = 'æ' then ['a', 'e']
    else if c = 'ø' then ['o']
    else if c = 'å' then ['a']
    else if c = '0' then ['o']
    else if c = '|' then ['l']
    else [c]

/-- Character kept by `re.sub(r'[^\w\s.%]', ' ', ·)`. -/
def keepNorm (c : Char) : Bool :=
  isWordChar c || pyIsSpace c || c = '.' || c = '%'

/-- `re.sub(r'[^\w\s.%]', ' ', s)`: replace every non-kept character by a
space. -/
def cleanChars (keep : Char → Bool) (l : List Char) : List Char :=
  l.map fun c => if keep c then c else ' '

/-- `PROMO_STOP_WORDS` in the source's listing order.  (The source stores
them in a Python `set`, whose iteration order is unspecified; the model
fixes the listing order.  The refutation of idempotence below is
independent of this order.) -/
def promoStopWords : List String :=
  ["new", "limited", "edition", "limited edition", "original taste",
   "since 1886", "recycle me", "pant", "deposit", "best served cold"]

/-- One word under `re.sub(r'\b([a-z]{2,})1\b', r'\1l', ·)`: a maximal
word-character run rewrites exactly when it consists of at least two
lowercase letters followed by a final `'1'`, in which case that `'1'`
becomes `'l'`. -/
def fixWord (w : List Char) : List Char :=
  if w.length ≥ 3 ∧ w.getLast? = some '1' ∧ w.dropLast.all isLowerAlpha then
    w.dropLast ++ ['l']
  else w

/-- Helper for `fix1`: `acc` is the current word-character run, reversed. -/
def fix1Aux : List Char → List Char → List Char
  | [], acc => if acc.isEmpty then [] else fixWord acc.reverse
  | c :: t, acc =>
    if isWordChar c then fix1Aux t (c :: acc)
    else (if acc.isEmpty then [] else fixWord acc.reverse) ++ c :: fix1Aux t []

/-- `re.sub(r'\b([a-z]{2,})1\b', r'\1l', s)`: apply `fixWord` to every
maximal run of word characters, leaving other characters in place. -/
def fix1 (l : List Char) : List Char :=
  fix1Aux l []

/-- `fix1Aux` with a non-empty pending run emits `fixWord` of that run
extended by the leading word-character run. -/
theorem fix1Aux_acc (l : List Char) : ∀ acc : List Char, ¬acc.isEmpty →
    fix1Aux l acc =
      fixWord (acc.reverse ++ l.takeWhile isWordChar) ++
        fix1Aux (l.dropWhile isWordChar) [] := by
  induction l with
  | nil =>
    intro acc hacc
    simp [fix1Aux, hacc, List.takeWhile, List.dropWhile]
  | cons c t ih =>
    intro acc hacc
    by_cases hc : isWordChar c
    · simp only [fix1Aux, hc, if_true, List.takeWhile_cons, List.dropWhile_cons]
      rw [ih (c :: acc) (by simp)]
      simp [hc]
    · simp [fix1Aux, hc, hacc, List.takeWhile_cons, List.dropWhile_cons]

/-- The word-run recurrence of `fix1`. -/
theorem fix1_cons (c : Char) (rest : List Char) :
    fix1 (c :: rest) =
      if isWordChar c then
        fixWord (c :: rest.takeWhile isWordChar) ++ fix1 (rest.dropWhile isWordChar)
      else c :: fix1 rest := by
  unfold fix1
  by_cases hc : isWordChar c
  · rw [show fix1Aux (c :: rest) [] = fix1Aux rest [c] by simp [fix1Aux, hc]]
    rw [fix1Aux_acc rest [c] (by simp)]
    simp [hc]
  · simp [fix1Aux, hc]

/-- Remove the promotional stop phrases: `collapsed.replace(phrase, ' ')`
for each phrase. -/
def removePromo (l : List Char) : List Char :=
  promoStopWords.foldl (fun acc p => replaceStr p.data [' '] acc) l

/-- `_normalize_text` on character lists. -/
def normChars (l : List Char) : List Char :=
  let l1 := lowerList (pyStrip l)
  let l2 := replaceChars l1
  let l3 := cleanChars keepNorm l2
  let l4 := collapse l3
  let l5 := removePromo l4
  let l6 := fix1 l5
  collapse l6

/-- `_normalize_text` (src/core/product_catalog.py, lines 33-48). -/
def normalize_text (s : String) : String :=
  String.mk (normChars s.data)

/-- `_tokenize`: the normalized text split on single spaces, keeping only
tokens longer than one character. -/
def tokenize (s : String) : List String :=
  ((splitChar ' ' (normChars s.data)).filter (fun w => w.length > 1)).map String.mk

/-! ### Rounding (Python `round`) -/

/-- Python `round` to an integer: round half to even. -/
def pyRound (q : ℚ) : ℤ :=
  let f := ⌊q⌋
  let r := q - (f : ℚ)
  if r < 1/2 then f
  else if 1/2 < r then f + 1
  else if f % 2 = 0 then f else f + 1

/-- Python `round(x, 4)`. -/
def round4 (q : ℚ) : ℚ :=
  (pyRound (q * 10000) : ℚ) / 10000

/-! ### `_clean_ocr_text` (src/main.py) -/

/-- Character kept by `re.sub(r'[^\w\s\-%\.]', ' ', ·)`. -/
def keepOcr (c : Char) : Bool :=
  isWordChar c || pyIsSpace c || c = '-' || c = '%' || c = '.'

/-- The stop phrases of `_clean_ocr_text`, in the source's tuple order
(here the order is part of the source, not a set). -/
def ocrStopPhrases : List String :=
  ["new", "limited edition", "limited", "edition", "since 1886", "recycle me"]

/-- `_clean_ocr_text` (src/main.py, lines 63-76) on character lists. -/
def cleanOcrChars (l : List Char) : List Char :=
  let l1 := lowerList (pyStrip l)
  let l2 := replaceChars l1
  let l3 := cleanChars keepOcr l2
  let l4 := collapse l3
  let l5 := ocrStopPhrases.foldl (fun acc p => replaceStr p.data [' '] acc) l4
  collapse l5

/-- `_clean_ocr_text` (src/main.py). -/
def clean_ocr_text (s : String) : String :=
  String.mk (cleanOcrChars s.data)

/-! ### Numeric regex extraction

Implements the patterns `(\d+(?:[.,]\d+)?)\s*l\b`, `...ml\b`,
`(\d+(?:[.,]\d+)?)\s*%`, `(\d{1,4})\s*kcal\b` and
`(\d+(?:[.,]\d+)?)\s*(ml|l)\b` of `re.search`: leftmost match, greedy
digit runs (shrinking a digit run can never succeed because the next
character would still be a digit), optional fraction group tried first,
alternation tried left to right. -/

/-- Numeric value of a digit run. -/
def digitsVal (ds : List Char) : ℕ :=
  ds.foldl (fun a c => a * 10 + (c.toNat - 48)) 0

/-- The optional `(?:[.,]\d+)` group at the given suffix: fraction value
and remaining input. -/
def fracPart (r1 : List Char) : Option (ℚ × List Char) :=
  match r1 with
  | sep :: r2 =>
    if sep = '.' ∨ sep = ',' then
      let f := r2.takeWhile Char.isDigit
      if f.isEmpty then none
      else some ((digitsVal f : ℚ) / ((10 : ℚ) ^ f.length), r2.drop f.length)
    else none
  | [] => none

/-- `\s*<unit>` and, when `requireBound` is set, a trailing `\b`. -/
def unitCont (unit : List Char) (requireBound : Bool) (t : List Char) : Bool :=
  let t2 := t.dropWhile pyIsSpace
  unit.isPrefixOf t2 &&
    (!requireBound ||
      (match t2.drop unit.length with | [] => true | c :: _ => !isWordChar c))

/-- Match `(\d+(?:[.,]\d+)?)\s*<unit>` anchored at the start of `l`,
returning the numeric group (comma read as decimal point, as the source
does `group(1).replace(',', '.')`). -/
def matchNumUnitAt (unit : List Char) (requireBound : Bool) (l : List Char) :
    Option ℚ :=
  let d1 := l.takeWhile Char.isDigit
  if d1.isEmpty then none
  else
    let r1 := l.drop d1.length
    let iv : ℚ := (digitsVal d1 : ℚ)
    match fracPart r1 with
    | some (fv, t) =>
      if unitCont unit requireBound t then some (iv + fv)
      else if unitCont unit requireBound r1 then some iv
      else none
    | none => if unitCont unit requireBound r1 then some iv else none

/-- `re.search` for the numeric-unit patterns: try each start position
left to right. -/
def searchNumUnit (unit : List Char) (requireBound : Bool) :
    List Char → Option ℚ
  | [] => none
  | c :: t =>
    match matchNumUnitAt unit requireBound (c :: t) with
    | some v => some v
    | none => searchNumUnit unit requireBound t

/-- Match `(\d{1,4})\s*kcal\b` anchored at the start of `l`.  A run of
more than four digits fails here (the four-digit window is followed by a
digit, and no shorter window helps), but a later start inside the run is
tried by the search. -/
def matchKcalAt (l : List Char) : Option ℤ :=
  let d1 := l.takeWhile Char.isDigit
  if d1.isEmpty || decide (d1.length > 4) then none
  else
    let t := l.drop d1.length
    if unitCont "kcal".data true t then some (digitsVal d1 : ℤ) else none

/-- `re.search(r'(\d{1,4})\s*kcal\b', ·)`. -/
def searchKcal : List Char → Option ℤ
  | [] => none
  | c :: t =>
    match matchKcalAt (c :: t) with
    | some v => some v
    | none => searchKcal t

/-- Match `(\d+(?:[.,]\d+)?)\s*(ml|l)\b` anchored at the start of `l`,
returning the volume in millilitres as `_extract_structured_ocr_fields`
computes it: litres are scaled by 1000 and rounded, millilitres rounded. -/
def matchVolumeAt (l : List Char) : Option ℤ :=
  let d1 := l.takeWhile Char.isDigit
  if d1.isEmpty then none
  else
    let r1 := l.drop d1.length
    let iv : ℚ := (digitsVal d1 : ℚ)
    let tryUnits : ℚ → List Char → Option ℤ := fun v t =>
      if unitCont "ml".data true t then some (pyRound v)
      else if unitCont "l".data true t then some (pyRound (v * 1000))
      else none
    match fracPart r1 with
    | some (fv, t) =>
      match tryUnits (iv + fv) t with
      | some r => some r
      | none => tryUnits iv r1
    | none => tryUnits iv r1

/-- `re.search(r'(\d+(?:[.,]\d+)?)\s*(ml|l)\b', ·)` with the source's
volume conversion. -/
def searchVolumeMain : List Char → Option ℤ
  | [] => none
  | c :: t =>
    match matchVolumeAt (c :: t) with
    | some v => some v
    | none => searchVolumeMain t

/-! ### Hint tables and `_looks_zero_sugar` -/

/-- `ZERO_HINTS` (a `set` in the source; only membership is used). -/
def zeroHints : List String := ["zero", "sugar free", "sukkerfri", "light", "max"]

/-- `REGULAR_HINTS`. -/
def regularHints : List String := ["original", "classic", "regular"]

/-- `_looks_zero_sugar` (src/core/product_catalog.py, lines 84-92). -/
def looks_zero_sugar (s : String) : Option Bool :=
  let normalized := normChars s.data
  if zeroHints.any (fun h => containsSub h.data normalized) then some true
  else if containsSub "sugar".data normalized ||
      containsSub "sukker".data normalized then some false
  else if regularHints.any (fun h => containsSub h.data normalized) then some false
  else none

/-- `_extract_volume_ml` (src/core/product_catalog.py): the `l` pattern is
searched first over the whole normalized text, then the `ml` pattern. -/
def extract_volume_ml (s : String) : Option ℤ :=
  let normalized := normChars s.data
  match searchNumUnit "l".data true normalized with
  | some v => some (pyRound (v * 1000))
  | none =>
    match searchNumUnit "ml".data true normalized with
    | some v => some (pyRound v)
    | none => none

/-- `_extract_abv` (src/core/product_catalog.py). -/
def extract_abv (s : String) : Option ℚ :=
  searchNumUnit "%".data false (normChars s.data)

/-- `_extract_kcal` (src/core/product_catalog.py). -/
def extract_kcal (s : String) : Option ℤ :=
  searchKcal (normChars s.data)

/-! ### `_extract_structured_ocr_fields` (src/main.py) -/

/-- An OCR row as logged: text, confidence, optional box. -/
structure OcrRow where
  text : String
  confidence : ℚ
  bbox : Option (List ℚ)
deriving Repr, DecidableEq

/-- A text detection (text span with confidence). -/
structure TextDetection where
  text : String
  confidence : ℚ
  bbox : Option (List ℚ)
deriving Repr, DecidableEq

/-- The structured fields extracted from OCR. -/
structure StructuredFields where
  brand : Option String := none
  product_name : Option String := none
  flavor : Option String := none
  volume_ml : Option ℤ := none
  abv : Option ℚ := none
  kcal : Option ℤ := none
  sugar_free : Option Bool := none
deriving Repr, DecidableEq

/-- The flavor hint tuple of `_extract_structured_ocr_fields`, in source
order. -/
def flavorHints : List String :=
  ["zero", "max", "original", "cola", "orange", "lemon", "lime", "mango",
   "berry", "vanilla"]

/-- The sugar-free `True` hints of `_extract_structured_ocr_fields`. -/
def sugarTrueHints : List String :=
  ["zero", "sugar free", "sukkerfri", "light", "max"]

/-- The sugar-free `False` hints of `_extract_structured_ocr_fields`. -/
def sugarFalseHints : List String := ["original", "regular", "classic"]

/-- The OCR blob of `_extract_structured_ocr_fields`: cleaned row texts,
non-empty ones joined by single spaces. -/
def ocrBlob (ocr_rows : List OcrRow) : List Char :=
  joinSpace ((ocr_rows.map (fun row => cleanOcrChars row.text.data)).filter
    (fun t => ¬t.isEmpty))

/-- `_extract_structured_ocr_fields` (src/main.py, lines 136-184). -/
def extract_structured_ocr_fields (ocr_rows : List OcrRow)
    (text_detections : List TextDetection) : StructuredFields :=
  let blob := ocrBlob ocr_rows
  let volume_ml := searchVolumeMain blob
  let abv := searchNumUnit "%".data false blob
  let kcal := searchKcal blob
  let bp : Option String × Option String :=
    text_detections.foldl
      (fun st det =>
        let text := cleanOcrChars det.text.data
        if text.isEmpty then st
        else
          let b := match st.1 with
            | some b0 => some b0
            | none =>
              if (wordsOf text).length ≤ 2 ∧ det.confidence ≥ 3/5 then
                some (String.mk text)
              else none
          let p := match st.2 with
            | some p0 => some p0
            | none =>
              if (wordsOf text).length ≤ 4 ∧ det.confidence ≥ 11/20 then
                some (String.mk text)
              else none
          (b, p))
      (none, none)
  let flavor :=
    flavorHints.foldl
      (fun acc h =>
        if containsSub h.data blob then
          match acc with
          | none => some h
          | some f => some (f ++ " " ++ h)
        else acc)
      none
  let sugar_free : Option Bool :=
    if sugarTrueHints.any (fun t => containsSub t.data blob) then some true
    else if sugarFalseHints.any (fun t => containsSub t.data blob) then some false
    else none
  { brand := bp.1, product_name := bp.2, flavor := flavor,
    volume_ml := volume_ml, abv := abv, kcal := kcal, sugar_free := sugar_free }

/-! ### `_fuzzy_overlap_score` and the product catalog -/

/-- `_tokenize` on character lists (normalize, split on single spaces,
keep tokens longer than one character). -/
def tokenizeChars (l : List Char) : List String :=
  ((splitChar ' ' (normChars l)).filter (fun w => w.length > 1)).map String.mk

/-- Helper for `dedupFirst`: `seen` collects the emitted elements. -/
def dedupFirstAux [DecidableEq α] : List α → List α → List α
  | [], _ => []
  | a :: t, seen =>
    if a ∈ seen then dedupFirstAux t seen else a :: dedupFirstAux t (a :: seen)

/-- Deduplicate keeping first occurrences (Python `set(...)` extensionally,
and `list(dict.fromkeys(...))` exactly). -/
def dedupFirst [DecidableEq α] (l : List α) : List α :=
  dedupFirstAux l []

/-- `_fuzzy_overlap_score(text, phrases)` (src/core/product_catalog.py,
lines 105-124): best overlap and the list of phrase hits in iteration
order.  Token sets are modelled as deduplicated lists; `len(a & b)` is the
number of distinct tokens lying in both. -/
def fuzzy_overlap_score (text : List Char) (phrases : List String) :
    ℚ × List String :=
  let tokens := dedupFirst (tokenizeChars text)
  phrases.foldl
    (fun (st : ℚ × List String) phrase =>
      let normalized := normChars phrase.data
      if normalized.isEmpty then st
      else if containsSub normalized text then
        (max st.1 1, st.2 ++ [String.mk normalized])
      else
        let phrase_tokens := dedupFirst (tokenizeChars normalized)
        if phrase_tokens.isEmpty then st
        else
          let overlap : ℚ :=
            ((tokens.filter (fun x => x ∈ phrase_tokens)).length : ℚ) /
              (phrase_tokens.length : ℚ)
          if overlap ≥ 1/2 then (max st.1 overlap, st.2 ++ [String.mk normalized])
          else st)
    (0, [])

/-- A catalog product (src/core/product_catalog.py, `ProductRecord`). -/
structure ProductRecord where
  product_id : String
  brand : String
  product_name : String
  aliases : List String := []
  barcode : Option String := none
  keywords : List String := []
  packaging : List String := []
  volume_ml : Option ℤ := none
  abv : Option ℚ := none
  sugar_free : Option Bool := none
  color_hints : List String := []
  family : Option String := none
deriving Repr, DecidableEq

/-- `str.strip()` on `String`. -/
def pyStripS (s : String) : String :=
  String.mk (pyStrip s.data)

/-- `ProductRecord.display_name`. -/
def ProductRecord.display_name (r : ProductRecord) : String :=
  let brand := pyStripS r.brand
  let name := pyStripS r.product_name
  if brand ≠ "" ∧ name ≠ "" then brand ++ " " ++ name
  else if name ≠ "" then name else brand

/-- `PACKAGING_HINTS` (a dict in the source; insertion order preserved). -/
def packagingHints : List (String × List String) :=
  [("can", ["can", "soda can", "tin can"]),
   ("bottle", ["bottle", "plastic bottle", "glass bottle"]),
   ("carton", ["carton", "box", "tetra pak"]),
   ("pouch", ["pouch", "bag", "sachet"]),
   ("bowl", ["bowl", "cup"]),
   ("plate", ["plate", "dish", "tray"]),
   ("wrapper", ["wrapper", "wrap", "packet"])]

/-- `_normalize_packaging` (src/core/product_catalog.py, lines 95-102). -/
def normalize_packaging (value : Option String) : Option String :=
  let normalized := String.mk (normChars (value.getD "").data)
  if normalized = "" then none
  else
    match packagingHints.find? (fun pa => normalized = pa.1 ∨ normalized ∈ pa.2) with
    | some pa => some pa.1
    | none => some normalized

/-! ### `ProductCatalog.rank_candidates` -/

/-- The keyword arguments of `rank_candidates`. -/
structure RankQuery where
  ocr_lines : List String := []
  barcode : Option String := none
  top_k : ℕ := 5
  packaging_type : Option String := none
  visual_hints : List String := []
  brand_hint : Option String := none
  structured_fields : Option StructuredFields := none
  visual_score_by_label : List (String × ℚ) := []
deriving Repr

/-- The per-candidate evidence object. -/
structure Evidence where
  ocr_tokens : List String
  matched_fields : List String
  packaging_type : Option String
  volume_ml : Option ℤ
  name_hits : Option (List String) := none
  keyword_hits : Option (List String) := none
  visual_similarity : Option ℚ := none
  kcal : Option ℤ := none
deriving Repr, DecidableEq

/-- One ranked output row.  `rank`, `score_margin_to_next` and `accepted`
are attached by the final enumeration pass, as in the source. -/
structure RankedRow where
  product_id : String
  name : String
  brand : String
  product_name : String
  confidence : ℚ
  raw_score : ℚ
  reasons : List String
  barcode : Option String
  packaging : List String
  volume_ml : Option ℤ
  evidence : Evidence
  rank : ℕ := 0
  score_margin_to_next : ℚ := 0
  accepted : Bool := false
deriving Repr, DecidableEq

/-- Scoring accumulator: running score, reason tags, evidence. -/
structure ScoreState where
  score : ℚ
  reasons : List String
  ev : Evidence
deriving Repr, DecidableEq

/-- The precomputed per-request observations of `rank_candidates`
(lines 248-262). -/
structure RankCtx where
  clean_ocr_lines : List (List Char)
  ocr_blob : List Char
  barcode_norm : List Char
  normalized_packaging : Option String
  visual_terms : List (List Char)
  visual_blob : List Char
  brand_hint_norm : List Char
  fields : StructuredFields
  visual_score_by_label : List (String × ℚ)
deriving Repr

/-- Build the request context (lines 248-262).  `observed_brand`,
`observed_product` and `observed_flavor` are recovered from `fields` at
use sites. -/
def mkRankCtx (q : RankQuery) : RankCtx :=
  let clean_ocr_lines :=
    (q.ocr_lines.map (fun line => normChars line.data)).filter (fun l => ¬l.isEmpty)
  let visual_terms :=
    (q.visual_hints.map (fun v => normChars v.data)).filter (fun l => ¬l.isEmpty)
  { clean_ocr_lines := clean_ocr_lines
    ocr_blob := joinSpace clean_ocr_lines
    barcode_norm := (wordsOf (q.barcode.getD "").data).flatten
    normalized_packaging := normalize_packaging q.packaging_type
    visual_terms := visual_terms
    visual_blob := joinSpace visual_terms
    brand_hint_norm := normChars (q.brand_hint.getD "").data
    fields := q.structured_fields.getD {}
    visual_score_by_label := q.visual_score_by_label }

/-- `searchable` text of a catalog item (lines 266-270). -/
def searchableText (item : ProductRecord) : List Char :=
  joinSpace
    (((([item.brand, item.product_name] ++ item.aliases ++ item.keywords).map
      (fun part => normChars part.data)).filter (fun l => ¬l.isEmpty)))

/-- Exact barcode match condition (`barcode_norm and item.barcode and
barcode_norm == item.barcode`). -/
def barcodeMatches (ctx : RankCtx) (item : ProductRecord) : Prop :=
  ctx.barcode_norm ≠ [] ∧
    match item.barcode with
    | some b => b ≠ "" ∧ String.mk ctx.barcode_norm = b
    | none => False

instance (ctx : RankCtx) (item : ProductRecord) :
    Decidable (barcodeMatches ctx item) := by
  unfold barcodeMatches
  cases item.barcode <;> exact inferInstance

/-- The prefilter (lines 264-288): a candidate passes if any channel
fires. -/
def prefilterItem (ctx : RankCtx) (item : ProductRecord) : Bool :=
  let searchable := searchableText item
  decide (barcodeMatches ctx item) ||
  (!ctx.ocr_blob.isEmpty &&
    (containsSub (normChars item.brand.data) ctx.ocr_blob ||
     item.aliases.any (fun a => containsSub (normChars a.data) ctx.ocr_blob) ||
     item.keywords.any (fun k => containsSub (normChars k.data) ctx.ocr_blob))) ||
  (!ctx.brand_hint_norm.isEmpty && containsSub ctx.brand_hint_norm searchable) ||
  (!ctx.visual_blob.isEmpty &&
    ctx.visual_terms.any (fun t => containsSub t searchable)) ||
  (match ctx.normalized_packaging with
   | some p => p ∈ item.packaging
   | none => false)

/-! ### Scoring steps (lines 294-423), in source order -/

/-- Append a tag to the reasons. -/
def ScoreState.tag (st : ScoreState) (t : String) : ScoreState :=
  { st with reasons := st.reasons ++ [t] }

/-- Append a matched field to the evidence. -/
def ScoreState.matched (st : ScoreState) (f : String) : ScoreState :=
  { st with ev := { st.ev with matched_fields := st.ev.matched_fields ++ [f] } }

/-- Add to the score. -/
def ScoreState.add (st : ScoreState) (d : ℚ) : ScoreState :=
  { st with score := st.score + d }

/-- Barcode contribution (lines 309-312). -/
def barcodeStep (ctx : RankCtx) (item : ProductRecord) (st : ScoreState) :
    ScoreState :=
  if barcodeMatches ctx item then ((st.add (6/5)).tag "barcode_exact").matched "barcode"
  else st

/-- Brand contribution (lines 314-326): structured exact, else OCR
substring, else fuzzy overlap. -/
def brandStep (ctx : RankCtx) (item : ProductRecord) (st : ScoreState) :
    ScoreState :=
  let observed_brand := normChars (ctx.fields.brand.getD "").data
  let brand_norm := normChars item.brand.data
  if ¬observed_brand.isEmpty ∧ ¬brand_norm.isEmpty ∧ observed_brand = brand_norm then
    ((st.add (11/20)).tag "brand_structured_exact").matched "brand"
  else if ¬brand_norm.isEmpty ∧ containsSub brand_norm ctx.ocr_blob then
    ((st.add (21/50)).tag "brand_exact").matched "brand"
  else
    let brand_fuzzy := (fuzzy_overlap_score ctx.ocr_blob (item.brand :: item.aliases)).1
    if brand_fuzzy > 0 then (st.add (3/10 * brand_fuzzy)).tag "brand_fuzzy"
    else st

/-- Product-name contribution (lines 328-348). -/
def productStep (ctx : RankCtx) (item : ProductRecord) (st : ScoreState) :
    ScoreState :=
  let observed_product := normChars (ctx.fields.product_name.getD "").data
  let name_norm := normChars item.product_name.data
  let product_phrases := item.product_name :: item.aliases
  if ¬observed_product.isEmpty ∧ observed_product = name_norm then
    ((st.add (11/20)).tag "product_structured_exact").matched "product_name"
  else
    let en := fuzzy_overlap_score ctx.ocr_blob [item.product_name]
    let al := fuzzy_overlap_score ctx.ocr_blob item.aliases
    let nf := fuzzy_overlap_score ctx.ocr_blob product_phrases
    let st1 :=
      if en.1 ≥ 1 then ((st.add (1/2)).tag "product_exact").matched "product_name"
      else if nf.1 > 0 then (st.add (9/25 * nf.1)).tag "product_fuzzy"
      else st
    let st2 :=
      if al.1 > 0 then (st1.add (min (9/50) (9/50 * al.1))).tag "alias_match"
      else st1
    if ¬nf.2.isEmpty then
      { st2 with ev := { st2.ev with
        name_hits := some ((dedupFirst (en.2 ++ al.2 ++ nf.2)).take 4) } }
    else st2

/-- Flavor contribution (lines 350-355). -/
def flavorStep (ctx : RankCtx) (item : ProductRecord) (st : ScoreState) :
    ScoreState :=
  let observed_flavor := normChars (ctx.fields.flavor.getD "").data
  if ¬observed_flavor.isEmpty then
    let keyword_norms := item.keywords.map (fun k => String.mk (normChars k.data))
    let ff := (fuzzy_overlap_score observed_flavor
      ((item.product_name :: item.aliases) ++ keyword_norms)).1
    if ff > 0 then ((st.add (9/50 * ff)).tag "flavor_match").matched "flavor"
    else st
  else st

/-- Keyword contribution (lines 357-361). -/
def keywordStep (ctx : RankCtx) (item : ProductRecord) (st : ScoreState) :
    ScoreState :=
  let keyword_norms := item.keywords.map (fun k => String.mk (normChars k.data))
  let kf := fuzzy_overlap_score ctx.ocr_blob keyword_norms
  if kf.1 > 0 then
    { ((st.add (3/25 * kf.1)).tag "keyword_match") with
      ev := { (((st.add (3/25 * kf.1)).tag "keyword_match")).ev with
        keyword_hits := some (kf.2.take 4) } }
  else st

/-- Visual brand-hint contribution (lines 363-365). -/
def brandHintStep (ctx : RankCtx) (item : ProductRecord) (st : ScoreState) :
    ScoreState :=
  let brand_norm := normChars item.brand.data
  if ¬ctx.brand_hint_norm.isEmpty ∧ ctx.brand_hint_norm = brand_norm then
    (st.add (9/50)).tag "visual_brand_hint"
  else st

/-- Visual-label similarity (lines 367-380). -/
def visualStep (ctx : RankCtx) (item : ProductRecord) (st : ScoreState) :
    ScoreState :=
  let brand_norm := normChars item.brand.data
  let name_norm := normChars item.product_name.data
  let alias_norms := item.aliases.map (fun a => normChars a.data)
  let lvs : ℚ :=
    ctx.visual_score_by_label.foldl
      (fun acc p =>
        let normalized_label := normChars p.1.data
        if ¬normalized_label.isEmpty ∧
            (containsSub normalized_label brand_norm ∨
             containsSub normalized_label name_norm ∨
             alias_norms.any (fun a => containsSub normalized_label a)) then
          max acc p.2
        else acc)
      0
  if lvs > 0 then
    { ((st.add (min (11/50) (lvs * 11/50))).tag "visual_label_match") with
      ev := { ((st.add (min (11/50) (lvs * 11/50))).tag "visual_label_match").ev with
        visual_similarity := some (round4 lvs) } }
  else st

/-- Packaging contribution (lines 382-389). -/
def packagingStep (ctx : RankCtx) (item : ProductRecord) (st : ScoreState) :
    ScoreState :=
  match ctx.normalized_packaging with
  | some p =>
    if ¬item.packaging.isEmpty then
      if p ∈ item.packaging then ((st.add (7/50)).tag "packaging_match").matched "packaging"
      else (st.add (-(3/10))).tag "packaging_mismatch"
    else st
  | none => st

/-- Volume contribution (lines 391-399); zero observed or catalog volumes
are falsy and skip the check. -/
def volumeStep (ctx : RankCtx) (item : ProductRecord) (st : ScoreState) :
    ScoreState :=
  match ctx.fields.volume_ml, item.volume_ml with
  | some ov, some iv =>
    if ov ≠ 0 ∧ iv ≠ 0 then
      let delta := (ov - iv).natAbs
      if delta ≤ 35 then ((st.add (1/5)).tag "volume_match").matched "volume_ml"
      else if delta ≥ 300 then (st.add (-(9/20))).tag "volume_mismatch"
      else st
    else st
  | _, _ => st

/-- ABV contribution (lines 401-408). -/
def abvStep (ctx : RankCtx) (item : ProductRecord) (st : ScoreState) :
    ScoreState :=
  match ctx.fields.abv, item.abv with
  | some oa, some ia =>
    if |oa - ia| ≤ 3/10 then ((st.add (3/20)).tag "abv_match").matched "abv"
    else (st.add (-(3/20))).tag "abv_mismatch"
  | _, _ => st

/-- Sugar-free contribution (lines 410-417). -/
def sugarStep (ctx : RankCtx) (item : ProductRecord) (st : ScoreState) :
    ScoreState :=
  match ctx.fields.sugar_free, item.sugar_free with
  | some ob, some ib =>
    if ob = ib then ((st.add (7/50)).tag "sugar_match").matched "sugar_free"
    else (st.add (-(7/20))).tag "sugar_mismatch"
  | _, _ => st

/-- kcal evidence (lines 419-420). -/
def kcalStep (ctx : RankCtx) (st : ScoreState) : ScoreState :=
  match ctx.fields.kcal with
  | some k => { st with ev := { st.ev with kcal := some k } }
  | none => st

/-- Score one candidate (lines 294-439); a candidate with score ≤ 0 is
dropped. -/
def scoreItem (ctx : RankCtx) (item : ProductRecord) : Option RankedRow :=
  let ev0 : Evidence :=
    { ocr_tokens := (ctx.clean_ocr_lines.take 12).map String.mk
      matched_fields := []
      packaging_type := ctx.normalized_packaging
      volume_ml := ctx.fields.volume_ml }
  let st0 : ScoreState := { score := 0, reasons := [], ev := ev0 }
  let st := kcalStep ctx
    (sugarStep ctx item
      (abvStep ctx item
        (volumeStep ctx item
          (packagingStep ctx item
            (visualStep ctx item
              (brandHintStep ctx item
                (keywordStep ctx item
                  (flavorStep ctx item
                    (productStep ctx item
                      (brandStep ctx item
                        (barcodeStep ctx item st0)))))))))))
  if st.score ≤ 0 then none
  else some
    { product_id := item.product_id
      name := item.display_name
      brand := item.brand
      product_name := item.product_name
      confidence := round4 (min 1 (max 0 (st.score / (9/5))))
      raw_score := round4 st.score
      reasons := st.reasons
      barcode := item.barcode
      packaging := item.packaging
      volume_ml := item.volume_ml
      evidence := st.ev }

/-- Descending sort key order: by raw score, ties by confidence
(`key=(raw_score, confidence), reverse=True`). -/
def rowGE (a b : RankedRow) : Prop :=
  b.raw_score < a.raw_score ∨
    (b.raw_score = a.raw_score ∧ b.confidence ≤ a.confidence)

instance : DecidableRel rowGE := fun a b => by
  unfold rowGE; exact inferInstance

/-- The final enumeration pass (lines 449-458): attach rank, margin to the
next row, and the acceptance flag.  `m0` is the rank-1/rank-2 margin. -/
def finalizeRows (m0 : ℚ) : ℕ → List RankedRow → List RankedRow
  | _, [] => []
  | i, r :: rest =>
    let m : ℚ :=
      if i = 0 then m0
      else
        match rest with
        | nxt :: _ => round4 (r.raw_score - nxt.raw_score)
        | [] => r.raw_score
    let acc : Bool := decide (i = 0) && decide (r.confidence ≥ 3/5) && decide (m0 ≥ 2/25)
    { r with rank := i + 1, score_margin_to_next := m, accepted := acc } ::
      finalizeRows m0 (i + 1) rest

/-- The tail of `rank_candidates` (lines 442-459): slice to `top`, compute
the rank-1 margin and run the final enumeration pass. -/
def rankFinalize (top : List RankedRow) : List RankedRow :=
  match top with
  | [] => []
  | t0 :: rest =>
    let second_score : ℚ := match rest with | t1 :: _ => t1.raw_score | [] => 0
    let m0 := round4 (t0.raw_score - second_score)
    finalizeRows m0 0 (t0 :: rest)

/-- `ProductCatalog.rank_candidates` (lines 233-459).  The Python
`list.sort` is a stable sort by the descending key; since every property
proved below is invariant under permutation of equal-key rows, the model
uses insertion sort with the same key order. -/
def rank_candidates (items : List ProductRecord) (q : RankQuery) :
    List RankedRow :=
  if items.isEmpty then []
  else
    let ctx := mkRankCtx q
    let cands := items.filter (prefilterItem ctx)
    let cands := if cands.isEmpty then items else cands
    let ranked := cands.filterMap (scoreItem ctx)
    let sorted := ranked.insertionSort rowGE
    rankFinalize (sorted.take (max 1 q.top_k))

/-! ### `DatasetLogger` (src/data_logger.py) -/

/-- `_as_str`: `None` stays `None`; otherwise strip, and an empty result
becomes `None`. -/
def as_str (v : Option String) : Option String :=
  match v with
  | none => none
  | some s => let t := pyStripS s; if t = "" then none else some t

/-- Python `x or y` on optional strings (`None` and `''` are falsy). -/
def pyOrStr (a b : Option String) : Option String :=
  match a with
  | some s => if s = "" then b else some s
  | none => b

/-- Python `x or y` on optional floats (`None` and `0.0` are falsy). -/
def pyOrQ (a b : Option ℚ) : Option ℚ :=
  match a with
  | some v => if v = 0 then b else some v
  | none => b

/-- `str.lower()` on `String` (ASCII). -/
def lowerS (s : String) : String :=
  String.mk (lowerList s.data)

/-- The serialized `analysis` snapshot (`_serialize_analysis` output; the
same shape is used for the caller-supplied snapshot, which the endpoints
build with these types). -/
structure Analysis where
  packaging_type : Option String := none
  ocr_strategy : Option String := none
  top_match_confidence : Option ℚ := none
  top_match_margin : Option ℚ := none
  top_match_accepted : Option Bool := none
  package_detection_strategy : Option String := none
  detected_labels : List String := []
  packaging_scores : List (String × ℚ) := []
  structured_ocr_fields : Option StructuredFields := none
  candidate_count : ℤ := 0
  detection_count : ℤ := 0
  text_detection_count : ℤ := 0
  non_food_filtered_count : ℤ := 0
deriving Repr, DecidableEq

/-- `_as_str_list`. -/
def as_str_list (v : List String) : List String :=
  v.filterMap (fun s => as_str (some s))

/-- `_as_float_dict`: keys cleaned, values clamped to [0, 1]. -/
def as_float_dict (v : List (String × ℚ)) : List (String × ℚ) :=
  v.filterMap (fun p =>
    match as_str (some p.1) with
    | some n => some (n, min 1 (max 0 p.2))
    | none => none)

/-- `_serialize_analysis` (lines 144-161); a missing snapshot serializes
to the empty dict, i.e. all defaults. -/
def serialize_analysis (a : Option Analysis) : Analysis :=
  match a with
  | none => {}
  | some x =>
    { packaging_type := as_str x.packaging_type
      ocr_strategy := as_str x.ocr_strategy
      top_match_confidence := x.top_match_confidence
      top_match_margin := x.top_match_margin
      top_match_accepted := x.top_match_accepted
      package_detection_strategy := as_str x.package_detection_strategy
      detected_labels := as_str_list x.detected_labels
      packaging_scores := as_float_dict x.packaging_scores
      structured_ocr_fields := x.structured_ocr_fields
      candidate_count := (x.candidate_count : ℤ)
      detection_count := x.detection_count
      text_detection_count := x.text_detection_count
      non_food_filtered_count := x.non_food_filtered_count }

/-- The request context. -/
structure Ctx where
  scan_mode : Option String := none
  device_info : Option String := none
  rotation_degrees : Option ℤ := none
deriving Repr, DecidableEq

/-- `_normalize_context` (lines 163-170). -/
def normalize_context (c : Option Ctx) : Ctx :=
  match c with
  | none => {}
  | some x =>
    { scan_mode := as_str x.scan_mode
      device_info := as_str x.device_info
      rotation_degrees := x.rotation_degrees }

/-- The feedback context (`_normalize_feedback_context` key set). -/
structure FeedbackContext where
  imageHash : Option String := none
  scanSessionId : Option String := none
  resolverChosenItemId : Option String := none
  resolverChosenScore : Option ℚ := none
  resolverChosenConfidence : Option ℚ := none
  userFinalItemId : Option String := none
  seedWinSource : Option String := none
  timeToFirstCandidateMs : Option ℚ := none
  predictLatencyMs : Option ℚ := none
  resolveLatencyMs : Option ℚ := none
  ocrTextCharCount : Option ℚ := none
  ocrBestLineScore : Option ℚ := none
  ocrSeedCount : Option ℚ := none
  ocrRunCount : Option ℚ := none
  ocrBrandBoostUsed : Option Bool := none
  frontVisibilityScore : Option ℚ := none
  selectedFrameQuality : Option ℚ := none
  selectedFrameSharpness : Option ℚ := none
  selectedFrameGlare : Option ℚ := none
  selectedFrameBrightness : Option ℚ := none
  packagingType : Option String := none
  topMatchConfidence : Option ℚ := none
  topMatchMargin : Option ℚ := none
  ocrStrategy : Option String := none
  shouldPromptRetake : Option Bool := none
  hadCorrectionTap : Option Bool := none
  adaptiveRankingApplied : Option Bool := none
deriving Repr, DecidableEq

/-- `_normalize_feedback_context` (lines 199-230): strings cleaned via
`_as_str`, numbers and booleans passed through; a missing dict becomes the
empty one. -/
def normalize_feedback_context (c : Option FeedbackContext) : FeedbackContext :=
  match c with
  | none => {}
  | some x =>
    { x with
      imageHash := as_str x.imageHash
      scanSessionId := as_str x.scanSessionId
      resolverChosenItemId := as_str x.resolverChosenItemId
      userFinalItemId := as_str x.userFinalItemId
      seedWinSource := as_str x.seedWinSource
      packagingType := as_str x.packagingType
      ocrStrategy := as_str x.ocrStrategy }

/-- A raw prediction row handed to `log_scan`. -/
structure PredIn where
  label : Option String := none
  cls : Option String := none
  confidence : Option ℚ := none
  conf : Option ℚ := none
  bbox : Option (List ℚ) := none
  xyxy : Option (List ℚ) := none
deriving Repr, DecidableEq

/-- A serialized prediction row. -/
structure PredRow where
  cls : String
  conf : ℚ
  xyxy : Option (List ℚ)
deriving Repr, DecidableEq

/-- `_serialize_predictions` (lines 40-61). -/
def serialize_predictions (predictions : List PredIn) : List PredRow :=
  predictions.filterMap (fun item =>
    let label := pyStripS (pyOrStr (pyOrStr item.label item.cls) (some "")).get!
    let confidence := match item.confidence with
      | some c => c
      | none => item.conf.getD 0
    let bbox := item.bbox.orElse (fun _ => item.xyxy)
    if label = "" then none
    else some { cls := label, conf := min 1 (max 0 confidence), xyxy := bbox })

/-- `_serialize_ocr` (lines 63-71). -/
def serialize_ocr (ocr : List String) : List String :=
  ocr.filterMap (fun token =>
    let value := pyStripS token
    if value = "" then none else some value)

/-- `_serialize_ocr_entries` (lines 73-96). -/
def serialize_ocr_entries (entries : List OcrRow) : List OcrRow :=
  entries.filterMap (fun row =>
    let text := pyStripS row.text
    if text = "" then none
    else some { text := text, confidence := min 1 (max 0 row.confidence),
                bbox := row.bbox })

/-- The six derived condition flags. -/
structure ConditionFlags where
  blur : Bool
  glare : Bool
  low_light : Bool
  low_label_visibility : Bool
  weak_ocr : Bool
  ambiguous_match : Bool
deriving Repr, DecidableEq

/-- The derived `data_quality` object. -/
structure DataQuality where
  packaging_type : Option String
  frame_quality : Option ℚ
  frame_sharpness : Option ℚ
  frame_glare : Option ℚ
  frame_brightness : Option ℚ
  front_visibility_score : Option ℚ
  ocr_text_char_count : Option ℚ
  ocr_best_line_score : Option ℚ
  top_match_margin : Option ℚ
  condition_flags : ConditionFlags
  quality_bucket : String
deriving Repr, DecidableEq

/-- The derived `active_learning` object. -/
structure ActiveLearning where
  candidate : Bool
  score : ℕ
  reasons : List String
  domain_key : String
deriving Repr, DecidableEq

/-- `_derive_domain_key` (lines 172-197); reads only the record's
`context`. -/
def derive_domain_key (context : Ctx) : String :=
  let scan_mode := (as_str context.scan_mode).getD "unknown"
  let device_info := (as_str context.device_info).getD "unknown"
  let parts := ((splitChar '|' device_info.data).map String.mk).filterMap (fun p =>
    let t := pyStripS p
    if t = "" then none else some (lowerS t))
  let platform0 := parts.headD "unknown"
  let agent := (parts.drop 1).headD ""
  let sub : String → String → Bool := fun p s => containsSub p.data s.data
  let platform :=
    if sub "iphone" agent || sub "ios" agent then "ios"
    else if sub "android" agent then "android"
    else if sub "win" platform0 then "windows"
    else if sub "mac" platform0 then "mac"
    else platform0
  let browser :=
    if sub "chrome" agent || sub "crios" agent then "chrome"
    else if sub "safari" agent then "safari"
    else if sub "firefox" agent then "firefox"
    else if sub "edg" agent then "edge"
    else "unknown"
  scan_mode ++ ":" ++ platform ++ ":" ++ browser

/-- `_derive_data_quality` (lines 232-272); reads only the record's
`analysis` and `bad_photo` besides the supplied feedback context. -/
def derive_data_quality (analysis : Analysis) (bad_photo : Bool)
    (fc : FeedbackContext) : DataQuality :=
  let packaging_type := pyOrStr (as_str fc.packagingType) (as_str analysis.packaging_type)
  let frame_sharpness := fc.selectedFrameSharpness
  let frame_glare := fc.selectedFrameGlare
  let frame_brightness := fc.selectedFrameBrightness
  let frame_quality := fc.selectedFrameQuality
  let front_visibility := fc.frontVisibilityScore
  let ocr_chars := fc.ocrTextCharCount
  let ocr_score := fc.ocrBestLineScore
  let top_match_margin := pyOrQ fc.topMatchMargin analysis.top_match_margin
  let packaged :=
    match packaging_type with
    | some p => p ∈ ["can", "bottle", "carton", "wrapper", "pouch"]
    | none => false
  let flags : ConditionFlags :=
    { blur := match frame_sharpness with | some v => v < 7/25 | none => false
      glare := match frame_glare with | some v => v > 31/50 | none => false
      low_light := match frame_brightness with | some v => v < 3/10 | none => false
      low_label_visibility :=
        packaged && (match front_visibility with | some v => v < 23/50 | none => false)
      weak_ocr :=
        (match ocr_chars with | some v => v < 8 | none => false) ||
        (match ocr_score with | some v => v < 11/20 | none => false)
      ambiguous_match :=
        match top_match_margin with | some v => v < 2/25 | none => false }
  let issue_count :=
    [flags.blur, flags.glare, flags.low_light, flags.low_label_visibility,
     flags.weak_ocr, flags.ambiguous_match].count true
  let quality_bucket :=
    if issue_count ≥ 3 || bad_photo then "low"
    else if issue_count ≥ 1 then "medium"
    else "high"
  { packaging_type := packaging_type
    frame_quality := frame_quality
    frame_sharpness := frame_sharpness
    frame_glare := frame_glare
    frame_brightness := frame_brightness
    front_visibility_score := front_visibility
    ocr_text_char_count := ocr_chars
    ocr_best_line_score := ocr_score
    top_match_margin := top_match_margin
    condition_flags := flags
    quality_bucket := quality_bucket }

/-- The price/promo tokens of the shelf-tag check. -/
def shelfTokens : List String := [" kr", "nok", "tilbud", "save", "%", "2 for", "3 for"]

/-- `_derive_failure_tags` (lines 274-314); parameters are exactly the
record fields the source reads.  `sorted(set(tags))` is computed as a
filter of the lexicographically sorted tag universe, since every tag is
added at most once. -/
def derive_failure_tags (fc : FeedbackContext) (dq : DataQuality)
    (ocr_output : List OcrRow) (predicted_product : Option String)
    (user_corrected_to : Option String) (user_confirmed : Option Bool)
    (not_food : Bool) (bad_photo : Bool) (analysis : Analysis) : List String :=
  let flags := dq.condition_flags
  let ocr_blob := joinSpace (ocr_output.map (fun row => lowerList (pyStrip row.text.data)))
  let predicted := as_str predicted_product
  let corrected := as_str user_corrected_to
  let wrong : Bool :=
    match predicted, corrected with
    | some p, some c => lowerS p ≠ lowerS c
    | _, _ => false
  let unresolved : Bool :=
    user_confirmed = some false && corrected = none && !not_food
  ([("bad_photo", bad_photo),
    ("close_tie", flags.ambiguous_match),
    ("hard_negative_non_food", not_food),
    ("low_label_visibility", flags.low_label_visibility),
    ("low_light", flags.low_light),
    ("motion_or_focus_blur", flags.blur),
    ("non_food_confuser_seen", decide (analysis.non_food_filtered_count > 0)),
    ("quality_gate_triggered", fc.shouldPromptRetake = some true),
    ("shelf_tag_noise", shelfTokens.any (fun t => containsSub t.data ocr_blob)),
    ("specular_glare", flags.glare),
    ("unresolved_prediction", unresolved),
    ("weak_ocr", flags.weak_ocr),
    ("wrong_product_match", wrong)] : List (String × Bool)).filterMap
    (fun p => if p.2 then some p.1 else none)

/-- `_derive_active_learning` (lines 316-359); parameters are exactly the
record fields the source reads (`data_quality` and `failure_tags` may be
absent on a fresh record). -/
def derive_active_learning (analysis : Analysis) (dq : Option DataQuality)
    (failure_tags : List String) (predicted_product : Option String)
    (user_confirmed : Option Bool) (user_corrected_to : Option String)
    (not_food : Bool) (context : Ctx) : ActiveLearning :=
  let top_conf := analysis.top_match_confidence
  let top_margin := analysis.top_match_margin
  let predicted := as_str predicted_product
  let quality_bucket :=
    match dq with
    | some d => as_str (some d.quality_bucket)
    | none => none
  let corrected_truthy : Bool :=
    match user_corrected_to with
    | some s => s ≠ ""
    | none => false
  let conds : List (Bool × String × ℕ) :=
    [(match top_conf with | none => true | some v => decide (v < 18/25),
      "low_confidence", 3),
     (match top_margin with | none => true | some v => decide (v < 1/10),
      "candidate_disagreement", 3),
     (predicted = none, "open_set_or_unknown", 2),
     (user_confirmed = some false || corrected_truthy || not_food,
      "user_disagreed", 4),
     (quality_bucket = some "low", "poor_capture_quality", 2),
     ("hard_negative_non_food" ∈ failure_tags, "hard_negative_non_food", 5),
     ("wrong_product_match" ∈ failure_tags, "wrong_product_match", 5),
     ("shelf_tag_noise" ∈ failure_tags, "ignore_region_noise", 2)]
  let reasons := conds.filterMap (fun c => if c.1 then some c.2.1 else none)
  let score := (conds.filterMap (fun c => if c.1 then some c.2.2 else none)).sum
  let deduped_reasons := dedupFirst reasons
  { candidate := !deduped_reasons.isEmpty
    score := score
    reasons := deduped_reasons
    domain_key := derive_domain_key context }

/-- A persisted scan record (the JSON document `log_scan` writes; fields
that only `update_feedback` adds are `Option` fields initialised to
`none`, matching the missing keys). -/
structure ScanRecord where
  scan_log_id : String
  image_path : String
  raw_image_path : String
  cropped_package_image_path : Option String
  predictions : List PredRow
  detection_boxes : List PredRow
  ocr : List String
  ocr_output : List OcrRow
  barcode : Option String
  barcode_result : Option String
  predicted_product : Option String
  predicted_candidates : List RankedRow
  analysis : Analysis
  final_predicted_product : Option String
  user_confirmed : Option Bool
  user_corrected_to : Option String
  user_accepted_product : Option String := none
  not_food : Bool
  bad_photo : Bool
  feedback_notes : Option String
  created_at : String
  updated_at : String
  request_id : Option String
  model : Option String
  latency_ms : Option ℤ
  context : Ctx
  feedback_context : Option FeedbackContext := none
  data_quality : Option DataQuality := none
  failure_tags : Option (List String) := none
  training_priority : Option String := none
  active_learning : Option ActiveLearning := none
deriving Repr, DecidableEq

/-- `_guess_extension`: a model of the `mimetypes` lookup for the image
types the system handles (`.jpe` is remapped to `.jpg`; unknown types
default to `.jpg`). -/
def guess_extension (mime : Option String) : String :=
  match mime with
  | none => ".jpg"
  | some m =>
    if m = "image/jpeg" then ".jpg"
    else if m = "image/png" then ".png"
    else if m = "image/webp" then ".webp"
    else if m = "image/gif" then ".gif"
    else ".jpg"

/-- The record store: one JSON document per scan id. -/
def RecordStore : Type := String → Option ScanRecord

/-- The keyword arguments of `log_scan`. -/
structure LogScanArgs where
  image_bytes : List ℕ := []
  package_crop_bytes : Option (List ℕ) := none
  mime_type : Option String := none
  predictions : List PredIn := []
  ocr : List String := []
  ocr_entries : List OcrRow := []
  barcode : Option String := none
  predicted_product : Option String := none
  predicted_candidates : List RankedRow := []
  analysis : Option Analysis := none
  context : Option Ctx := none
  request_id : Option String := none
  model : Option String := none
  latency_ms : Option ℤ := none
deriving Repr

/-- `DatasetLogger.log_scan` (lines 361-430).  The generated uuid, the
clock reading and the date partition are lifted to the parameters
`scan_log_id`, `now` and `day_part`; `base` is the dataset directory.
Returns the updated store and the record. -/
def log_scan (store : RecordStore) (base scan_log_id now day_part : String)
    (a : LogScanArgs) : RecordStore × ScanRecord :=
  let ext := guess_extension a.mime_type
  let image_path := base ++ "/images/" ++ day_part ++ "/" ++ scan_log_id ++ ext
  let crop_relative_path : Option String :=
    match a.package_crop_bytes with
    | some b => if b ≠ [] then some (base ++ "/crops/" ++ day_part ++ "/" ++ scan_log_id ++ ext) else none
    | none => none
  let barcode_clean : Option String :=
    match a.barcode with
    | some b => if b = "" then none else some (pyStripS b)
    | none => none
  let prediction_rows := serialize_predictions a.predictions
  let record : ScanRecord :=
    { scan_log_id := scan_log_id
      image_path := image_path
      raw_image_path := image_path
      cropped_package_image_path := crop_relative_path
      predictions := prediction_rows
      detection_boxes := prediction_rows
      ocr := serialize_ocr a.ocr
      ocr_output := serialize_ocr_entries a.ocr_entries
      barcode := barcode_clean
      barcode_result := barcode_clean
      predicted_product := a.predicted_product
      predicted_candidates := a.predicted_candidates
      analysis := serialize_analysis a.analysis
      final_predicted_product := a.predicted_product
      user_confirmed := none
      user_corrected_to := none
      not_food := false
      bad_photo := false
      feedback_notes := none
      created_at := now
      updated_at := now
      request_id := a.request_id
      model := a.model
      latency_ms := a.latency_ms
      context := normalize_context a.context }
  let record2 :=
    { record with active_learning := some (derive_active_learning
        record.analysis none [] record.predicted_product record.user_confirmed
        record.user_corrected_to record.not_food record.context) }
  (fun k => if k = scan_log_id then some record2 else store k, record2)

/-- The optional fields of an `update_feedback` call; `none` models an
argument that was not supplied. -/
structure FeedbackPayload where
  user_confirmed : Option Bool := none
  user_corrected_to : Option String := none
  not_food : Option Bool := none
  bad_photo : Option Bool := none
  feedback_notes : Option String := none
  feedback_context : Option FeedbackContext := none
deriving Repr

/-- The field-application phase of `update_feedback` (lines 450-469):
only explicitly provided fields are applied, in source order. -/
def applyFeedbackFields (r0 : ScanRecord) (p : FeedbackPayload) : ScanRecord :=
  let r1 :=
    match p.user_confirmed with
    | some uc =>
      let ra := { r0 with user_confirmed := some uc }
      if uc then
        match pyOrStr ra.user_corrected_to ra.predicted_product with
        | some chosen =>
          if chosen ≠ "" then { ra with user_accepted_product := some chosen } else ra
        | none => ra
      else ra
    | none => r0
  let r2 :=
    match p.user_corrected_to with
    | some s =>
      let normalized := pyStripS s
      let rb := { r1 with
        user_corrected_to := if normalized = "" then none else some normalized }
      if normalized ≠ "" then { rb with user_accepted_product := some normalized }
      else rb
    | none => r1
  let r3 := match p.not_food with
    | some b => { r2 with not_food := b }
    | none => r2
  let r4 := match p.bad_photo with
    | some b => { r3 with bad_photo := b }
    | none => r3
  let r5 := match p.feedback_notes with
    | some s =>
      let n := pyStripS s
      { r4 with feedback_notes := if n = "" then none else some n }
    | none => r4
  match p.feedback_context with
  | some fc => { r5 with feedback_context := some (normalize_feedback_context (some fc)) }
  | none => r5

/-- The derivation phase of `update_feedback` (lines 471-481): recompute
`data_quality`, `failure_tags`, `training_priority` and `active_learning`,
in that order. -/
def rederive (r0 : ScanRecord) : ScanRecord :=
  let dq := derive_data_quality r0.analysis r0.bad_photo (r0.feedback_context.getD {})
  let ft := derive_failure_tags (r0.feedback_context.getD {}) dq r0.ocr_output
    r0.predicted_product r0.user_corrected_to r0.user_confirmed r0.not_food
    r0.bad_photo r0.analysis
  let tp := if ft.any (fun t => t = "hard_negative_non_food" ∨ t = "wrong_product_match")
    then "high" else if ¬ft.isEmpty then "medium" else "low"
  let al := derive_active_learning r0.analysis (some dq) ft r0.predicted_product
    r0.user_confirmed r0.user_corrected_to r0.not_food r0.context
  { r0 with
    data_quality := some dq
    failure_tags := some ft
    training_priority := some tp
    active_learning := some al }

/-- `DatasetLogger.update_feedback` (lines 432-488): `NotFound` when the
id is unknown, otherwise apply the provided fields, re-derive, stamp
`updated_at`, persist and return the record. -/
def update_feedback (store : RecordStore) (scan_log_id : String)
    (p : FeedbackPayload) (now : String) :
    Except String (RecordStore × ScanRecord) :=
  match store scan_log_id with
  | none => .error "FileNotFoundError"
  | some current =>
    let updated := { rederive (applyFeedbackFields current p) with updated_at := now }
    .ok (fun k => if k = scan_log_id then some updated else store k, updated)

/-! ### `ProductCatalog._load_items` (lines 151-231) -/

/-- A decoded JSON value. -/
inductive Json where
  | null
  | bool (b : Bool)
  | num (q : ℚ)
  | str (s : String)
  | arr (items : List Json)
  | obj (fields : List (String × Json))
deriving Repr

/-- `dict.get(key)` on an object; `None` (here `none`) otherwise. -/
def Json.lookup (j : Json) (key : String) : Option Json :=
  match j with
  | .obj fs => (fs.find? (fun f => f.1 = key)).map (fun f => f.2)
  | _ => none

/-- Python truthiness of a decoded JSON value. -/
def Json.falsy : Json → Bool
  | .null => true
  | .bool b => !b
  | .num q => q = 0
  | .str s => s = ""
  | .arr l => l.isEmpty
  | .obj l => l.isEmpty

/-- `str()` of a decoded JSON value.  Catalog string fields are strings,
bools, null or integers in practice; the `repr` of non-integer floats and
of containers is not modelled (rendered as the bare rational / empty). -/
def Json.pyStr : Json → String
  | .null => "None"
  | .bool true => "True"
  | .bool false => "False"
  | .str s => s
  | .num q => if q.den = 1 then toString q.num else toString q
  | .arr _ => ""
  | .obj _ => ""

/-- `str(row.get(key) or '')`. -/
def getStrField (row : Json) (key : String) : String :=
  match row.lookup key with
  | some v => if v.falsy then "" else v.pyStr
  | none => ""

/-- A non-empty all-digit run. -/
def parseDigits (l : List Char) : Option ℕ :=
  if ¬l.isEmpty ∧ l.all Char.isDigit then some (digitsVal l) else none

/-- `int(s)` on a string: optional sign, digits (exotic forms not
modelled). -/
def parseIntStr (s : String) : Option ℤ :=
  let t := pyStrip s.data
  match t with
  | '-' :: ds => (parseDigits ds).map (fun n => -(n : ℤ))
  | '+' :: ds => (parseDigits ds).map (fun n => (n : ℤ))
  | ds => (parseDigits ds).map (fun n => (n : ℤ))

/-- `float(s)` on a string: optional sign, digits with optional decimal
point (exponent/inf forms not modelled). -/
def parseFloatStr (s : String) : Option ℚ :=
  let core : List Char → Option ℚ := fun ds =>
    let ip := ds.takeWhile Char.isDigit
    match ds.drop ip.length with
    | [] => (parseDigits ip).map (fun n => (n : ℚ))
    | '.' :: fs =>
      if fs.all Char.isDigit ∧ ¬(ip.isEmpty ∧ fs.isEmpty) then
        some ((digitsVal ip : ℚ) + (digitsVal fs : ℚ) / ((10 : ℚ) ^ fs.length))
      else none
    | _ => none
  let t := pyStrip s.data
  match t with
  | '-' :: ds => (core ds).map (fun q => -q)
  | '+' :: ds => core ds
  | ds => core ds

/-- Truncation toward zero (Python `int()` on a float). -/
def truncQ (q : ℚ) : ℤ :=
  if 0 ≤ q then ⌊q⌋ else ⌈q⌉

/-- `int(value)` on a decoded JSON value (`try/except` yielding `none`). -/
def Json.toInt : Json → Option ℤ
  | .num q => some (truncQ q)
  | .bool b => some (if b then 1 else 0)
  | .str s => parseIntStr s
  | _ => none

/-- `float(value)` on a decoded JSON value. -/
def Json.toFloat : Json → Option ℚ
  | .num q => some q
  | .bool b => some (if b then 1 else 0)
  | .str s => parseFloatStr s
  | _ => none

/-- Parse one catalog row (lines 178-230); `none` is the `continue`
branches (non-dict row, or neither brand nor product name). -/
def parseRow (row : Json) : Option ProductRecord :=
  match row with
  | .obj _ =>
    let brand := pyStripS (getStrField row "brand")
    let product_name := pyStripS (getStrField row "product_name")
    if brand = "" ∧ product_name = "" then none
    else
      let idRaw :=
        match row.lookup "id" with
        | some v => if v.falsy then brand ++ ":" ++ product_name else v.pyStr
        | none => brand ++ ":" ++ product_name
      let aliases :=
        match row.lookup "aliases" with
        | some (.arr l) => l.filterMap (fun v =>
            let t := pyStripS v.pyStr
            if t = "" then none else some t)
        | _ => []
      let keywords :=
        match row.lookup "keywords" with
        | some (.arr l) => l.filterMap (fun v =>
            let t := pyStripS v.pyStr
            if t = "" then none else some t)
        | _ => []
      let barcode_raw := pyStripS (getStrField row "barcode")
      let packaging :=
        match row.lookup "packaging" with
        | some (.arr l) => l.filterMap (fun v => normalize_packaging (some v.pyStr))
        | _ => []
      let volume0 : Option ℤ :=
        match row.lookup "volume_ml" with
        | some .null => none
        | some v => v.toInt
        | none => none
      let volume_ml :=
        match volume0 with
        | some n => if n = 0 then extract_volume_ml product_name else some n
        | none => extract_volume_ml product_name
      let abv0 : Option ℚ :=
        match row.lookup "abv" with
        | some .null => none
        | some v => v.toFloat
        | none => none
      let abv :=
        match abv0 with
        | some q => some q
        | none => extract_abv product_name
      let searchJoin := String.mk (joinSpace
        (([brand, product_name] ++ aliases ++ keywords).map String.data))
      let sugar_free : Option Bool :=
        match row.lookup "sugar_free" with
        | some (.bool b) => some b
        | some .null => looks_zero_sugar searchJoin
        | some _ => none
        | none => looks_zero_sugar searchJoin
      let color_hints :=
        match row.lookup "color_hints" with
        | some (.arr l) => l.filterMap (fun v =>
            let t := pyStripS v.pyStr
            if t = "" then none else some (lowerS t))
        | _ => []
      let family :=
        let f := pyStripS (getStrField row "family")
        if f = "" then none else some f
      some
        { product_id := pyStripS idRaw
          brand := brand
          product_name := product_name
          aliases := aliases
          barcode := if barcode_raw = "" then none else some barcode_raw
          keywords := keywords
          packaging := packaging
          volume_ml := volume_ml
          abv := abv
          sugar_free := sugar_free
          color_hints := color_hints
          family := family }
  | _ => none

/-- The state of the catalog file on disk. -/
inductive CatalogFile where
  | missing
  | unreadable (contents : String)
  | parsed (value : Json)
deriving Repr

/-- `ProductCatalog._load_items` (lines 170-231): a missing file yields
the empty catalog; a file whose contents fail to parse as JSON raises
(`json.loads` is not guarded, modelled as `Except.error`); a JSON payload
that is not a list yields the empty catalog; list rows are parsed with
`parseRow`. -/
def load_items : CatalogFile → Except String (List ProductRecord)
  | .missing => .ok []
  | .unreadable _ => .error "json.JSONDecodeError"
  | .parsed v =>
    match v with
    | .arr rows => .ok (rows.filterMap parseRow)
    | _ => .ok []

/-! ### Field-application characterizations of `update_feedback` -/

theorem apply_user_confirmed (r : ScanRecord) (p : FeedbackPayload) :
    (applyFeedbackFields r p).user_confirmed =
      match p.user_confirmed with
      | some b => some b
      | none => r.user_confirmed := by
  rcases p with ⟨uc, ucor, nf, bp, fn, fc⟩
  unfold applyFeedbackFields
  cases uc <;> cases ucor <;> cases nf <;> cases bp <;> cases fn <;> cases fc <;>
    dsimp only <;> (repeat' split) <;> rfl

theorem apply_user_corrected_to (r : ScanRecord) (p : FeedbackPayload) :
    (applyFeedbackFields r p).user_corrected_to =
      match p.user_corrected_to with
      | some s => if pyStripS s = "" then none else some (pyStripS s)
      | none => r.user_corrected_to := by
  rcases p with ⟨uc, ucor, nf, bp, fn, fc⟩
  unfold applyFeedbackFields
  cases uc <;> cases ucor <;> cases nf <;> cases bp <;> cases fn <;> cases fc <;>
    dsimp only <;> (repeat' split) <;> rfl

theorem apply_not_food (r : ScanRecord) (p : FeedbackPayload) :
    (applyFeedbackFields r p).not_food =
      match p.not_food with
      | some b => b
      | none => r.not_food := by
  rcases p with ⟨uc, ucor, nf, bp, fn, fc⟩
  unfold applyFeedbackFields
  cases uc <;> cases ucor <;> cases nf <;> cases bp <;> cases fn <;> cases fc <;>
    dsimp only <;> (repeat' split) <;> rfl

theorem apply_bad_photo (r : ScanRecord) (p : FeedbackPayload) :
    (applyFeedbackFields r p).bad_photo =
      match p.bad_photo with
      | some b => b
      | none => r.bad_photo := by
  rcases p with ⟨uc, ucor, nf, bp, fn, fc⟩
  unfold applyFeedbackFields
  cases uc <;> cases ucor <;> cases nf <;> cases bp <;> cases fn <;> cases fc <;>
    dsimp only <;> (repeat' split) <;> rfl

theorem apply_feedback_notes (r : ScanRecord) (p : FeedbackPayload) :
    (applyFeedbackFields r p).feedback_notes =
      match p.feedback_notes with
      | some s => if pyStripS s = "" then none else some (pyStripS s)
      | none => r.feedback_notes := by
  rcases p with ⟨uc, ucor, nf, bp, fn, fc⟩
  unfold applyFeedbackFields
  cases uc <;> cases ucor <;> cases nf <;> cases bp <;> cases fn <;> cases fc <;>
    dsimp only <;> (repeat' split) <;> rfl

theorem apply_feedback_context (r : ScanRecord) (p : FeedbackPayload) :
    (applyFeedbackFields r p).feedback_context =
      match p.feedback_context with
      | some fc => some (normalize_feedback_context (some fc))
      | none => r.feedback_context := by
  rcases p with ⟨uc, ucor, nf, bp, fn, fc⟩
  unfold applyFeedbackFields
  cases uc <;> cases ucor <;> cases nf <;> cases bp <;> cases fn <;> cases fc <;>
    dsimp only <;> (repeat' split) <;> rfl

theorem apply_analysis (r : ScanRecord) (p : FeedbackPayload) :
    (applyFeedbackFields r p).analysis = r.analysis := by
  rcases p with ⟨uc, ucor, nf, bp, fn, fc⟩
  unfold applyFeedbackFields
  cases uc <;> cases ucor <;> cases nf <;> cases bp <;> cases fn <;> cases fc <;>
    dsimp only <;> (repeat' split) <;> rfl

theorem apply_ocr_output (r : ScanRecord) (p : FeedbackPayload) :
    (applyFeedbackFields r p).ocr_output = r.ocr_output := by
  rcases p with ⟨uc, ucor, nf, bp, fn, fc⟩
  unfold applyFeedbackFields
  cases uc <;> cases ucor <;> cases nf <;> cases bp <;> cases fn <;> cases fc <;>
    dsimp only <;> (repeat' split) <;> rfl

theorem apply_predicted_product (r : ScanRecord) (p : FeedbackPayload) :
    (applyFeedbackFields r p).predicted_product = r.predicted_product := by
  rcases p with ⟨uc, ucor, nf, bp, fn, fc⟩
  unfold applyFeedbackFields
  cases uc <;> cases ucor <;> cases nf <;> cases bp <;> cases fn <;> cases fc <;>
    dsimp only <;> (repeat' split) <;> rfl

theorem apply_context (r : ScanRecord) (p : FeedbackPayload) :
    (applyFeedbackFields r p).context = r.context := by
  rcases p with ⟨uc, ucor, nf, bp, fn, fc⟩
  unfold applyFeedbackFields
  cases uc <;> cases ucor <;> cases nf <;> cases bp <;> cases fn <;> cases fc <;>
    dsimp only <;> (repeat' split) <;> rfl

/-- The four derivations depend only on the nine record projections they
read. -/
theorem rederive_derived_congr (a b : ScanRecord)
    (h1 : a.analysis = b.analysis) (h2 : a.bad_photo = b.bad_photo)
    (h3 : a.feedback_context = b.feedback_context)
    (h4 : a.ocr_output = b.ocr_output)
    (h5 : a.predicted_product = b.predicted_product)
    (h6 : a.user_corrected_to = b.user_corrected_to)
    (h7 : a.user_confirmed = b.user_confirmed) (h8 : a.not_food = b.not_food)
    (h9 : a.context = b.context) :
    (rederive a).data_quality = (rederive b).data_quality ∧
    (rederive a).failure_tags = (rederive b).failure_tags ∧
    (rederive a).training_priority = (rederive b).training_priority ∧
    (rederive a).active_learning = (rederive b).active_learning := by
  unfold rederive
  dsimp only
  rw [h1, h2, h3, h4, h5, h6, h7, h8, h9]
  exact ⟨rfl, rfl, rfl, rfl⟩

/-! ### Claim C5 — initial derived fields of `log_scan` -/

/-- C5 (counterexample): the record computed and returned by `log_scan`
does NOT contain initial values of all re-derived fields: on a concrete
call, `data_quality`, `failure_tags` and `training_priority` are absent
(`none`) — only `active_learning` is derived at creation. -/
theorem C5_counterexample :
    ((log_scan (fun _ => none) "dataset" "id-1" "t0" "2026-10-12" {}).2.data_quality
        = none) ∧
    ((log_scan (fun _ => none) "dataset" "id-1" "t0" "2026-10-12" {}).2.failure_tags
        = none) ∧
    ((log_scan (fun _ => none) "dataset" "id-1" "t0" "2026-10-12" {}).2.training_priority
        = none) := by
  exact ⟨rfl, rfl, rfl⟩

/-- C5 (amended): `log_scan` assigns the fresh id, persists the record it
returns, initialises the feedback fields empty, and derives only
`active_learning` from the analysis snapshot alone (no feedback present);
`data_quality`, `failure_tags` and `training_priority` stay absent until
the first `update_feedback`. -/
theorem C5_amended (store : RecordStore) (base id now day : String)
    (a : LogScanArgs) :
    ((log_scan store base id now day a).1 id = some (log_scan store base id now day a).2) ∧
    (log_scan store base id now day a).2.scan_log_id = id ∧
    (log_scan store base id now day a).2.created_at = now ∧
    (log_scan store base id now day a).2.updated_at = now ∧
    (log_scan store base id now day a).2.user_confirmed = none ∧
    (log_scan store base id now day a).2.user_corrected_to = none ∧
    (log_scan store base id now day a).2.not_food = false ∧
    (log_scan store base id now day a).2.bad_photo = false ∧
    (log_scan store base id now day a).2.feedback_notes = none ∧
    (log_scan store base id now day a).2.feedback_context = none ∧
    (log_scan store base id now day a).2.data_quality = none ∧
    (log_scan store base id now day a).2.failure_tags = none ∧
    (log_scan store base id now day a).2.training_priority = none ∧
    (log_scan store base id now day a).2.active_learning =
      some (derive_active_learning (log_scan store base id now day a).2.analysis
        none [] (log_scan store base id now day a).2.predicted_product
        none none false (log_scan store base id now day a).2.context) := by
  refine ⟨?_, rfl, rfl, rfl, rfl, rfl, rfl, rfl, rfl, rfl, rfl, rfl, rfl, rfl⟩
  unfold log_scan
  simp

/-! ### Claim C6 — `update_feedback`: NotFound and partial update -/

/-- C6: `update_feedback` fails with the NotFound condition when the scan
id is unknown; on success it applies only the explicitly provided fields —
every feedback field passed as `none` keeps its prior stored value. -/
theorem C6_update_feedback_selective (store : RecordStore) (id : String)
    (p : FeedbackPayload) (now : String) :
    (store id = none → update_feedback store id p now = .error "FileNotFoundError") ∧
    (∀ rec, store id = some rec →
      ∃ store2 upd, update_feedback store id p now = .ok (store2, upd) ∧
        (p.user_confirmed = none → upd.user_confirmed = rec.user_confirmed) ∧
        (p.user_corrected_to = none → upd.user_corrected_to = rec.user_corrected_to) ∧
        (p.not_food = none → upd.not_food = rec.not_food) ∧
        (p.bad_photo = none → upd.bad_photo = rec.bad_photo) ∧
        (p.feedback_notes = none → upd.feedback_notes = rec.feedback_notes) ∧
        (p.feedback_context = none → upd.feedback_context = rec.feedback_context)) := by
  constructor
  · intro h
    unfold update_feedback
    rw [h]
  · intro rec h
    refine ⟨_, _, by unfold update_feedback; rw [h], ?_, ?_, ?_, ?_, ?_, ?_⟩
    · intro hp
      show (applyFeedbackFields rec p).user_confirmed = rec.user_confirmed
      rw [apply_user_confirmed, hp]
    · intro hp
      show (applyFeedbackFields rec p).user_corrected_to = rec.user_corrected_to
      rw [apply_user_corrected_to, hp]
    · intro hp
      show (applyFeedbackFields rec p).not_food = rec.not_food
      rw [apply_not_food, hp]
    · intro hp
      show (applyFeedbackFields rec p).bad_photo = rec.bad_photo
      rw [apply_bad_photo, hp]
    · intro hp
      show (applyFeedbackFields rec p).feedback_notes = rec.feedback_notes
      rw [apply_feedback_notes, hp]
    · intro hp
      show (applyFeedbackFields rec p).feedback_context = rec.feedback_context
      rw [apply_feedback_context, hp]

/-- A concrete stored record and store used by the witnesses: the result
of one `log_scan` on an empty store. -/
def exScan : RecordStore × ScanRecord :=
  log_scan (fun _ => none) "dataset" "id-1" "t0" "2026-10-12"
    { predicted_product := some "Urge 0.5l"
      analysis := some { top_match_confidence := some (4/5)
                         top_match_margin := some (1/5)
                         non_food_filtered_count := 1 }
      ocr_entries := [⟨" Tilbud 2 FOR 30 ", 9/10, none⟩] }

/-- C6 witness: both hypotheses discharged at concrete inputs — an unknown
id yields the NotFound error, and an update with an all-absent payload on
a stored record keeps each prior feedback value. -/
theorem C6_update_feedback_selective_witness :
    (update_feedback (fun _ => none) "missing" {} "t1" = .error "FileNotFoundError") ∧
    (∃ store2 upd, update_feedback exScan.1 "id-1" {} "t1" = .ok (store2, upd) ∧
      (FeedbackPayload.user_confirmed {} = none → upd.user_confirmed = exScan.2.user_confirmed) ∧
      (FeedbackPayload.user_corrected_to {} = none → upd.user_corrected_to = exScan.2.user_corrected_to) ∧
      (FeedbackPayload.not_food {} = none → upd.not_food = exScan.2.not_food) ∧
      (FeedbackPayload.bad_photo {} = none → upd.bad_photo = exScan.2.bad_photo) ∧
      (FeedbackPayload.feedback_notes {} = none → upd.feedback_notes = exScan.2.feedback_notes) ∧
      (FeedbackPayload.feedback_context {} = none → upd.feedback_context = exScan.2.feedback_context)) :=
  ⟨(C6_update_feedback_selective (fun _ => none) "missing" {} "t1").1 rfl,
   (C6_update_feedback_selective exScan.1 "id-1" {} "t1").2 exScan.2 rfl⟩

/-! ### Claim C3 — idempotence of the feedback derivation pipeline -/

/-- C3: calling `update_feedback` twice in a row with identical payloads
on the same scan record produces identical derived fields both times: the
derivation pipeline is a pure function of the record state it reads, and
the second field-application phase leaves that state unchanged. -/
theorem C3_update_feedback_idempotent (store : RecordStore) (id : String)
    (p : FeedbackPayload) (now1 now2 : String) (rec : ScanRecord)
    (h : store id = some rec) :
    ∃ store1 r1 store2 r2,
      update_feedback store id p now1 = .ok (store1, r1) ∧
      update_feedback store1 id p now2 = .ok (store2, r2) ∧
      r2.data_quality = r1.data_quality ∧
      r2.failure_tags = r1.failure_tags ∧
      r2.training_priority = r1.training_priority ∧
      r2.active_learning = r1.active_learning := by
  have hfirst : update_feedback store id p now1 =
      .ok (fun k => if k = id then
          some { rederive (applyFeedbackFields rec p) with updated_at := now1 }
        else store k,
        { rederive (applyFeedbackFields rec p) with updated_at := now1 }) := by
    unfold update_feedback
    rw [h]
  set r1 : ScanRecord :=
    { rederive (applyFeedbackFields rec p) with updated_at := now1 } with hr1
  have hsecond : update_feedback
      (fun k => if k = id then some r1 else store k) id p now2 =
      .ok (fun k => if k = id then
          some { rederive (applyFeedbackFields r1 p) with updated_at := now2 }
        else if k = id then some r1 else store k,
        { rederive (applyFeedbackFields r1 p) with updated_at := now2 }) := by
    unfold update_feedback
    simp
  refine ⟨_, _, _, _, hfirst, hsecond, ?_⟩
  -- the second field-application phase reproduces the readable state of
  -- the first, so the (pure) derivations recompute the same values
  have congrd := rederive_derived_congr (applyFeedbackFields r1 p)
    (applyFeedbackFields rec p)
    ((apply_analysis r1 p).trans rfl)
    (by rw [apply_bad_photo r1 p]
        cases hp : p.bad_photo with
        | none => rfl
        | some b => rw [apply_bad_photo rec p, hp])
    (by rw [apply_feedback_context r1 p]
        cases hp : p.feedback_context with
        | none => rfl
        | some fc => rw [apply_feedback_context rec p, hp])
    ((apply_ocr_output r1 p).trans rfl)
    ((apply_predicted_product r1 p).trans rfl)
    (by rw [apply_user_corrected_to r1 p]
        cases hp : p.user_corrected_to with
        | none => rfl
        | some s => rw [apply_user_corrected_to rec p, hp])
    (by rw [apply_user_confirmed r1 p]
        cases hp : p.user_confirmed with
        | none => rfl
        | some b => rw [apply_user_confirmed rec p, hp])
    (by rw [apply_not_food r1 p]
        cases hp : p.not_food with
        | none => rfl
        | some b => rw [apply_not_food rec p, hp])
    ((apply_context r1 p).trans rfl)
  exact ⟨congrd.1, congrd.2.1, congrd.2.2.1, congrd.2.2.2⟩

/-- C3 witness: the theorem at a concrete store, record and payload. -/
theorem C3_update_feedback_idempotent_witness :
    ∃ store1 r1 store2 r2,
      update_feedback exScan.1 "id-1"
        { user_confirmed := some false, bad_photo := some true } "t1" = .ok (store1, r1) ∧
      update_feedback store1 "id-1"
        { user_confirmed := some false, bad_photo := some true } "t2" = .ok (store2, r2) ∧
      r2.data_quality = r1.data_quality ∧
      r2.failure_tags = r1.failure_tags ∧
      r2.training_priority = r1.training_priority ∧
      r2.active_learning = r1.active_learning :=
  C3_update_feedback_idempotent exScan.1 "id-1"
    { user_confirmed := some false, bad_photo := some true } "t1" "t2" exScan.2 rfl

/-! ### Structure of the ranked output -/

/-- `rank_candidates` is empty or the finalization of the sorted, sliced
scores of some candidate list. -/
theorem rank_candidates_decomp (items : List ProductRecord) (q : RankQuery) :
    rank_candidates items q = [] ∨
    ∃ cands : List ProductRecord,
      rank_candidates items q =
        rankFinalize (((cands.filterMap (scoreItem (mkRankCtx q))).insertionSort
          rowGE).take (max 1 q.top_k)) := by
  unfold rank_candidates
  by_cases he : items.isEmpty
  · exact Or.inl (by rw [if_pos he])
  · right
    rw [if_neg he]
    exact ⟨_, rfl⟩

/-- Rows of `finalizeRows` carry the confidence, raw score and reasons of
a source row. -/
theorem finalizeRows_mem (m0 : ℚ) :
    ∀ (i : ℕ) (l : List RankedRow) (row : RankedRow),
      row ∈ finalizeRows m0 i l →
      ∃ r0 ∈ l, row.confidence = r0.confidence ∧
        row.raw_score = r0.raw_score ∧ row.reasons = r0.reasons := by
  intro i l
  induction l generalizing i with
  | nil => intro row hmem; simp [finalizeRows] at hmem
  | cons r rest ih =>
    intro row hmem
    simp only [finalizeRows, List.mem_cons] at hmem
    rcases hmem with hrow | htail
    · exact ⟨r, List.mem_cons_self r rest, by rw [hrow], by rw [hrow], by rw [hrow]⟩
    · obtain ⟨r0, hr0, h1, h2, h3⟩ := ih (i + 1) row htail
      exact ⟨r0, List.mem_cons_of_mem r hr0, h1, h2, h3⟩

/-- Every row of the ranked output originates from `scoreItem` on some
catalog item: its confidence, raw score and reasons are those computed by
the scoring pass. -/
theorem rank_mem_score (items : List ProductRecord) (q : RankQuery)
    (row : RankedRow) (hmem : row ∈ rank_candidates items q) :
    ∃ item r0, scoreItem (mkRankCtx q) item = some r0 ∧
      row.confidence = r0.confidence ∧ row.raw_score = r0.raw_score ∧
      row.reasons = r0.reasons := by
  rcases rank_candidates_decomp items q with hnil | ⟨cands, hdec⟩
  · rw [hnil] at hmem; simp at hmem
  · rw [hdec] at hmem
    set top := ((cands.filterMap (scoreItem (mkRankCtx q))).insertionSort
      rowGE).take (max 1 q.top_k) with htop
    have hmem2 : ∃ r0 ∈ top, row.confidence = r0.confidence ∧
        row.raw_score = r0.raw_score ∧ row.reasons = r0.reasons := by
      unfold rankFinalize at hmem
      match top, hmem with
      | t0 :: rest, hmem =>
        dsimp only at hmem
        exact finalizeRows_mem _ 0 (t0 :: rest) row hmem
    obtain ⟨r0, hr0top, h1, h2, h3⟩ := hmem2
    have hr0sort : r0 ∈ (cands.filterMap (scoreItem (mkRankCtx q))).insertionSort rowGE :=
      List.take_subset _ _ hr0top
    have hr0ranked : r0 ∈ cands.filterMap (scoreItem (mkRankCtx q)) :=
      (List.perm_insertionSort rowGE _).mem_iff.mp hr0sort
    obtain ⟨item, _, hscore⟩ := List.mem_filterMap.mp hr0ranked
    exact ⟨item, r0, hscore, h1, h2, h3⟩

/-! ### Claim C1 — acceptance policy -/

/-- `finalizeRows`: an accepted row is the head, carries rank 1, passes
the confidence floor, and its stored margin is the rank-1 margin. -/
theorem finalizeRows_accepted (m0 : ℚ) :
    ∀ (i : ℕ) (l : List RankedRow) (row : RankedRow),
      row ∈ finalizeRows m0 i l → row.accepted = true →
      i = 0 ∧ (finalizeRows m0 i l).head? = some row ∧ row.rank = 1 ∧
        row.confidence ≥ 3/5 ∧ m0 ≥ 2/25 ∧ row.score_margin_to_next = m0 := by
  intro i l
  induction l generalizing i with
  | nil => intro row hmem _; simp [finalizeRows] at hmem
  | cons r rest ih =>
    intro row hmem hacc
    simp only [finalizeRows, List.mem_cons] at hmem
    rcases hmem with hrow | htail
    · subst hrow
      have hacc2 : (decide (i = 0) && decide (r.confidence ≥ 3/5) &&
          decide (m0 ≥ 2/25)) = true := hacc
      simp only [Bool.and_eq_true, decide_eq_true_eq] at hacc2
      obtain ⟨⟨hi, hconf⟩, hm⟩ := hacc2
      subst hi
      exact ⟨rfl, rfl, rfl, hconf, hm, rfl⟩
    · exact absurd (ih (i + 1) row htail hacc).1 (Nat.succ_ne_zero i)

/-- C1: in the ranked list, `accepted` is true only for the rank-1
candidate (the list head), and only when its confidence is ≥ 0.6 and the
rank-1/rank-2 margin — which is exactly the head row's
`score_margin_to_next`, with a missing rank 2 contributing 0 — is ≥ 0.08;
it is never true for any row of rank > 1. -/
theorem C1_accepted_only_rank1 (items : List ProductRecord) (q : RankQuery)
    (row : RankedRow) (hmem : row ∈ rank_candidates items q)
    (hacc : row.accepted = true) :
    (rank_candidates items q).head? = some row ∧ row.rank = 1 ∧
      row.confidence ≥ 3/5 ∧ row.score_margin_to_next ≥ 2/25 := by
  rcases rank_candidates_decomp items q with hnil | ⟨cands, hdec⟩
  · rw [hnil] at hmem; simp at hmem
  · rw [hdec] at hmem ⊢
    set top := ((cands.filterMap (scoreItem (mkRankCtx q))).insertionSort
      rowGE).take (max 1 q.top_k) with htop
    unfold rankFinalize at hmem ⊢
    match top, hmem with
    | t0 :: rest, hmem =>
      dsimp only at hmem ⊢
      have hfin := finalizeRows_accepted _ 0 (t0 :: rest) row hmem hacc
      exact ⟨hfin.2.1, hfin.2.2.1, hfin.2.2.2.1, hfin.2.2.2.2.2 ▸ hfin.2.2.2.2.1⟩

/-! ### Rounding facts -/

theorem pyRound_intCast (z : ℤ) : pyRound (z : ℚ) = z := by
  unfold pyRound
  simp [Int.floor_intCast]

theorem pyRound_nonneg (q : ℚ) (h : 0 ≤ q) : 0 ≤ pyRound q := by
  unfold pyRound
  have hf : (0 : ℤ) ≤ ⌊q⌋ := Int.floor_nonneg.mpr h
  dsimp only
  split
  · exact hf
  · split
    · omega
    · split <;> omega

theorem pyRound_le_intCast (q : ℚ) (n : ℤ) (h : q ≤ (n : ℚ)) : pyRound q ≤ n := by
  have hf : ⌊q⌋ ≤ n := by
    have := Int.floor_le_floor h
    simpa using this
  unfold pyRound
  dsimp only
  split
  · exact hf
  · rename_i h1
    have hr : (1 : ℚ)/2 ≤ q - ⌊q⌋ := le_of_not_lt h1
    have hlt : (⌊q⌋ : ℚ) < (n : ℚ) := by
      have hq : (⌊q⌋ : ℚ) ≤ q := Int.floor_le q
      linarith
    have hfn : ⌊q⌋ < n := by exact_mod_cast hlt
    split
    · omega
    · split <;> omega

theorem round4_nonneg (x : ℚ) (h : 0 ≤ x) : 0 ≤ round4 x := by
  unfold round4
  have h10 : (0 : ℚ) ≤ x * 10000 := by nlinarith
  have := pyRound_nonneg (x * 10000) h10
  have hcast : (0 : ℚ) ≤ (pyRound (x * 10000) : ℚ) := by exact_mod_cast this
  positivity

theorem round4_le_one (x : ℚ) (h : x ≤ 1) : round4 x ≤ 1 := by
  unfold round4
  have h2 : x * 10000 ≤ ((10000 : ℤ) : ℚ) := by push_cast; linarith
  have h3 := pyRound_le_intCast (x * 10000) 10000 h2
  rw [div_le_one (by norm_num)]
  exact_mod_cast h3

/-- `round4` fixes exact multiples of 1/10000. -/
theorem round4_int_div (z : ℤ) : round4 ((z : ℚ)/10000) = (z : ℚ)/10000 := by
  unfold round4
  have hz : (z : ℚ)/10000 * 10000 = (z : ℚ) := by field_simp
  rw [hz, pyRound_intCast]

/-- A difference of two rounded values is already rounded. -/
theorem round4_sub_round4 (a b : ℚ) :
    round4 (round4 a - round4 b) = round4 a - round4 b := by
  have hz : round4 a - round4 b = ((pyRound (a * 10000) - pyRound (b * 10000) : ℤ) : ℚ)/10000 := by
    unfold round4
    push_cast
    ring
  rw [hz, round4_int_div]

theorem round4_round4 (a : ℚ) : round4 (round4 a) = round4 a := by
  have hz : round4 a = ((pyRound (a * 10000) : ℤ) : ℚ)/10000 := rfl
  rw [hz, round4_int_div]

/-! ### Claim C2 — confidence computation and bounds -/

/-- `scoreItem` output: raw score and confidence come from one underlying
positive accumulated score. -/
theorem scoreItem_shape (ctx : RankCtx) (item : ProductRecord) (r0 : RankedRow)
    (h : scoreItem ctx item = some r0) :
    ∃ s : ℚ, 0 < s ∧ r0.raw_score = round4 s ∧
      r0.confidence = round4 (min 1 (max 0 (s / (9/5)))) := by
  unfold scoreItem at h
  dsimp only at h
  split at h
  · exact absurd h (by simp)
  · rename_i hpos
    have heq := Option.some_inj.mp h
    exact ⟨_, lt_of_not_le hpos, by rw [← heq], by rw [← heq]⟩

/-- C2 (amended): every ranked candidate's `confidence` is
`round4 (clamp (s/1.8, 0, 1))` for the candidate's un-rounded accumulated
score `s` — of which the `raw_score` field is the 4-decimal rounding —
and hence `0 ≤ confidence ≤ 1`.  (The claim as stated, with the rounded
`raw_score` field in place of `s`, is refuted by `C2_counterexample`.) -/
theorem C2_amended_confidence (items : List ProductRecord) (q : RankQuery)
    (row : RankedRow) (hmem : row ∈ rank_candidates items q) :
    ∃ s : ℚ, 0 < s ∧ row.raw_score = round4 s ∧
      row.confidence = round4 (min 1 (max 0 (s / (9/5)))) ∧
      0 ≤ row.confidence ∧ row.confidence ≤ 1 := by
  obtain ⟨item, r0, hscore, hconf, hraw, _⟩ := rank_mem_score items q row hmem
  obtain ⟨s, hs, hraw0, hconf0⟩ := scoreItem_shape _ _ _ hscore
  refine ⟨s, hs, hraw.trans hraw0, hconf.trans hconf0, ?_, ?_⟩
  · rw [hconf, hconf0]
    exact round4_nonneg _ (le_min (by norm_num) (le_max_left _ _))
  · rw [hconf, hconf0]
    exact round4_le_one _ (min_le_left _ _)

/-- A catalog item and queries used by concrete examples: a barcode-only
match scores 1.2; adding a visual label hit of 0.00312 raises the score to
1.2006864, whose rounding behaviour separates the two confidence
formulas. -/
def exItemCola : ProductRecord :=
  { product_id := "cola-1", brand := "cola", product_name := "",
    barcode := some "123" }

def exQueryBarcode : RankQuery := { barcode := some "123" }

def exQueryVisual : RankQuery :=
  { barcode := some "123", visual_score_by_label := [("cola", 39/12500)] }

def exDummyRow : RankedRow :=
  { product_id := "", name := "", brand := "", product_name := "",
    confidence := 0, raw_score := 0, reasons := [], barcode := none,
    packaging := [], volume_ml := none,
    evidence := { ocr_tokens := [], matched_fields := [],
                  packaging_type := none, volume_ml := none } }

def exRowAccepted : RankedRow :=
  (rank_candidates [exItemCola] exQueryVisual).headD exDummyRow

/-- C2 (counterexample): on a reachable input the ranked candidate has
`confidence = 0.667` but `clamp(raw_score/1.8, 0, 1)` rounded to 4
decimals is `0.6671`: the code computes confidence from the un-rounded
score (1.2006864), not from the `raw_score` field (1.2007). -/
theorem C2_counterexample :
    (rank_candidates [exItemCola] exQueryVisual).map
      (fun r => (r.confidence, r.raw_score)) = [(667/1000, 12007/10000)] ∧
    round4 (min 1 (max 0 ((12007/10000 : ℚ) / (9/5)))) = 6671/10000 ∧
    (667/1000 : ℚ) ≠ 6671/10000 := by
  exact ⟨by decide, by decide, by decide⟩

/-- C2 witness: the amended theorem applied to the concrete ranked row. -/
theorem C2_amended_confidence_witness :
    ∃ s : ℚ, 0 < s ∧ exRowAccepted.raw_score = round4 s ∧
      exRowAccepted.confidence = round4 (min 1 (max 0 (s / (9/5)))) ∧
      0 ≤ exRowAccepted.confidence ∧ exRowAccepted.confidence ≤ 1 :=
  C2_amended_confidence [exItemCola] exQueryVisual exRowAccepted (by decide)

/-- C1 witness: the theorem applied to a concrete accepted row. -/
theorem C1_accepted_only_rank1_witness :
    (rank_candidates [exItemCola] exQueryVisual).head? = some exRowAccepted ∧
      exRowAccepted.rank = 1 ∧ exRowAccepted.confidence ≥ 3/5 ∧
      exRowAccepted.score_margin_to_next ≥ 2/25 :=
  C1_accepted_only_rank1 [exItemCola] exQueryVisual exRowAccepted (by decide)
    (by decide)

/-! ### Claim C4 — the margin sequence -/

theorem finalizeRows_length (m0 : ℚ) :
    ∀ (i : ℕ) (l : List RankedRow), (finalizeRows m0 i l).length = l.length := by
  intro i l
  induction l generalizing i with
  | nil => rfl
  | cons r rest ih => simp [finalizeRows, ih]

/-- Positional characterization of the final pass: the stored margin and
raw score at each index. -/
theorem finalizeRows_margin (m0 : ℚ) :
    ∀ (i : ℕ) (l : List RankedRow) (j : ℕ)
      (hj2 : j < (finalizeRows m0 i l).length) (hj : j < l.length),
      (((finalizeRows m0 i l).get ⟨j, hj2⟩).score_margin_to_next =
        if i + j = 0 then m0
        else if hj1 : j + 1 < l.length then
          round4 ((l.get ⟨j, hj⟩).raw_score - (l.get ⟨j + 1, hj1⟩).raw_score)
        else (l.get ⟨j, hj⟩).raw_score) ∧
      ((finalizeRows m0 i l).get ⟨j, hj2⟩).raw_score = (l.get ⟨j, hj⟩).raw_score := by
  intro i l
  induction l generalizing i with
  | nil => intro j hj2 hj; simp at hj
  | cons r rest ih =>
    intro j hj2 hj
    cases j with
    | zero =>
      constructor
      · simp only [finalizeRows, List.get]
        cases rest with
        | nil =>
          by_cases hi : i = 0 <;> simp [hi]
        | cons t1 rest2 =>
          by_cases hi : i = 0 <;> simp [hi, List.get]
      · rfl
    | succ k =>
      have hj2p : k < (finalizeRows m0 (i + 1) rest).length := by
        rw [finalizeRows_length]
        simpa using hj
      have hjk : k < rest.length := by simpa using hj
      have hih := ih (i + 1) k hj2p hjk
      have hget : (finalizeRows m0 i (r :: rest)).get ⟨k + 1, hj2⟩ =
          (finalizeRows m0 (i + 1) rest).get ⟨k, hj2p⟩ := rfl
      constructor
      · rw [hget, hih.1]
        rw [if_neg (by omega : ¬(i + 1 + k = 0)), if_neg (by omega : ¬(i + (k + 1) = 0))]
        by_cases hk1 : k + 1 < rest.length
        · rw [dif_pos hk1, dif_pos (by simpa using hk1 : k + 1 + 1 < (r :: rest).length)]
          rfl
        · rw [dif_neg hk1, dif_neg (by simpa using hk1 : ¬(k + 1 + 1 < (r :: rest).length))]
          rfl
      · rw [hget, hih.2]
        rfl

/-- C4 (amended): at every position `i` of the ranked list,
`score_margin_to_next` equals `raw_score[i] - raw_score[i+1]`; at the LAST
position it equals that row's own `raw_score` — not 0 as claimed (for the
top row with no runner-up this is `raw_score - 0`).  Refuted as stated by
`C4_counterexample`. -/
theorem C4_amended (items : List ProductRecord) (q : RankQuery) (i : ℕ)
    (h : i < (rank_candidates items q).length) :
    ((rank_candidates items q).get ⟨i, h⟩).score_margin_to_next =
      if h2 : i + 1 < (rank_candidates items q).length then
        ((rank_candidates items q).get ⟨i, h⟩).raw_score -
          ((rank_candidates items q).get ⟨i + 1, h2⟩).raw_score
      else ((rank_candidates items q).get ⟨i, h⟩).raw_score := by
  rcases rank_candidates_decomp items q with hnil | ⟨cands, hdec⟩
  · rw [hnil] at h; simp at h
  · revert h
    rw [hdec]
    set top := ((cands.filterMap (scoreItem (mkRankCtx q))).insertionSort
      rowGE).take (max 1 q.top_k) with htop
    have hmemtop : ∀ x ∈ top, ∃ s, x.raw_score = round4 s := by
      intro x hx
      rw [htop] at hx
      have hx3 := List.take_subset _ _ hx
      have hx4 := (List.perm_insertionSort rowGE _).mem_iff.mp hx3
      obtain ⟨item, _, hscore⟩ := List.mem_filterMap.mp hx4
      obtain ⟨s, _, hraw, _⟩ := scoreItem_shape _ _ _ hscore
      exact ⟨s, hraw⟩
    clear_value top
    clear htop hdec
    cases top with
    | nil => intro h; simp [rankFinalize] at h
    | cons t0 rest =>
      cases rest with
      | nil =>
        unfold rankFinalize
        dsimp only
        intro h
        have hi : i = 0 := by
          have hlen1 : (finalizeRows (round4 (t0.raw_score - 0)) 0 [t0]).length = 1 := by
            rw [finalizeRows_length]; rfl
          omega
        subst hi
        have hm := finalizeRows_margin (round4 (t0.raw_score - 0)) 0 [t0] 0 h (by simp)
        rw [hm.1, hm.2]
        rw [if_pos rfl]
        rw [dif_neg (by rw [finalizeRows_length]; simp)]
        obtain ⟨s, hs⟩ := hmemtop t0 (List.mem_cons_self _ _)
        simp only [List.get]
        rw [hs, sub_zero, round4_round4]
      | cons t1 rest2 =>
        unfold rankFinalize
        dsimp only
        intro h
        have hL2 : 2 ≤ (t0 :: t1 :: rest2 : List RankedRow).length := by simp
        have hiL : i < (t0 :: t1 :: rest2 : List RankedRow).length := by
          have hleq := finalizeRows_length (round4 (t0.raw_score - t1.raw_score)) 0
            (t0 :: t1 :: rest2)
          omega
        have hm := finalizeRows_margin (round4 (t0.raw_score - t1.raw_score)) 0
          (t0 :: t1 :: rest2) i h hiL
        rw [hm.1]
        by_cases h2 : i + 1 < (t0 :: t1 :: rest2 : List RankedRow).length
        · have h2f : i + 1 < (finalizeRows (round4 (t0.raw_score - t1.raw_score)) 0
              (t0 :: t1 :: rest2)).length := by
            rw [finalizeRows_length]; exact h2
          rw [dif_pos h2f]
          rw [(finalizeRows_margin (round4 (t0.raw_score - t1.raw_score)) 0
            (t0 :: t1 :: rest2) (i + 1) h2f h2).2, hm.2]
          by_cases hi0 : i = 0
          · subst hi0
            rw [if_pos rfl]
            simp only [List.get]
            obtain ⟨s0, hs0⟩ := hmemtop t0 (List.mem_cons_self _ _)
            obtain ⟨s1, hs1⟩ := hmemtop t1
              (List.mem_cons_of_mem _ (List.mem_cons_self _ _))
            rw [hs0, hs1, round4_sub_round4]
          · rw [if_neg (by omega : ¬(0 + i = 0))]
            rw [dif_pos h2]
            obtain ⟨sa, hsa⟩ := hmemtop ((t0 :: t1 :: rest2).get ⟨i, hiL⟩)
              (List.get_mem _ _ _)
            obtain ⟨sb, hsb⟩ := hmemtop ((t0 :: t1 :: rest2).get ⟨i + 1, h2⟩)
              (List.get_mem _ _ _)
            rw [hsa, hsb, round4_sub_round4]
        · have h2f : ¬(i + 1 < (finalizeRows (round4 (t0.raw_score - t1.raw_score)) 0
              (t0 :: t1 :: rest2)).length) := by
            rw [finalizeRows_length]; exact h2
          rw [dif_neg h2f, hm.2]
          rw [if_neg (by omega : ¬(0 + i = 0))]
          rw [dif_neg h2]

/-- C4 (counterexample): in a single-row ranked list the (last) position
carries `score_margin_to_next = 1.2`, its own raw score, not 0. -/
theorem C4_counterexample :
    (rank_candidates [exItemCola] exQueryBarcode).map
      (fun r => r.score_margin_to_next) = [6/5] ∧ ((6/5 : ℚ) ≠ 0) := by
  exact ⟨by decide, by decide⟩

/-- C4 witness: the amended statement instantiated at the head position of
a concrete one-row ranking. -/
theorem C4_amended_witness :
    ((rank_candidates [exItemCola] exQueryBarcode).get ⟨0, by decide⟩).score_margin_to_next =
      if h2 : 0 + 1 < (rank_candidates [exItemCola] exQueryBarcode).length then
        ((rank_candidates [exItemCola] exQueryBarcode).get ⟨0, by decide⟩).raw_score -
          ((rank_candidates [exItemCola] exQueryBarcode).get ⟨0 + 1, h2⟩).raw_score
      else ((rank_candidates [exItemCola] exQueryBarcode).get ⟨0, by decide⟩).raw_score :=
  C4_amended [exItemCola] exQueryBarcode 0 (by decide)

/-! ### Claim C10 — brand contributions are mutually exclusive -/

/-- Number of brand reason tags (counting multiplicity). -/
def brandCount (l : List String) : ℕ :=
  l.count "brand_structured_exact" + l.count "brand_exact" + l.count "brand_fuzzy"

theorem brandCount_append (a b : List String) :
    brandCount (a ++ b) = brandCount a + brandCount b := by
  simp [brandCount, List.count_append]
  omega

theorem brandCount_barcodeStep (ctx : RankCtx) (item : ProductRecord)
    (st : ScoreState) :
    brandCount (barcodeStep ctx item st).reasons = brandCount st.reasons := by
  unfold barcodeStep
  repeat' split
  all_goals simp [ScoreState.tag, ScoreState.matched, ScoreState.add,
    brandCount_append, brandCount]

theorem brandCount_flavorStep (ctx : RankCtx) (item : ProductRecord)
    (st : ScoreState) :
    brandCount (flavorStep ctx item st).reasons = brandCount st.reasons := by
  unfold flavorStep
  dsimp only
  split_ifs
  all_goals simp [ScoreState.tag, ScoreState.matched, ScoreState.add,
    brandCount_append, brandCount]

theorem brandCount_brandStep (ctx : RankCtx) (item : ProductRecord)
    (st : ScoreState) (h : brandCount st.reasons = 0) :
    brandCount (brandStep ctx item st).reasons ≤ 1 := by
  unfold brandStep
  dsimp only
  split_ifs
  all_goals simp [ScoreState.tag, ScoreState.matched, ScoreState.add,
    brandCount_append, brandCount] at h ⊢
  all_goals omega

theorem brandCount_productStep (ctx : RankCtx) (item : ProductRecord)
    (st : ScoreState) :
    brandCount (productStep ctx item st).reasons = brandCount st.reasons := by
  unfold productStep
  try dsimp only
  repeat' split
  all_goals simp [ScoreState.tag, ScoreState.matched, ScoreState.add,
    brandCount_append, brandCount]

theorem brandCount_keywordStep (ctx : RankCtx) (item : ProductRecord)
    (st : ScoreState) :
    brandCount (keywordStep ctx item st).reasons = brandCount st.reasons := by
  unfold keywordStep
  try dsimp only
  repeat' split
  all_goals simp [ScoreState.tag, ScoreState.matched, ScoreState.add,
    brandCount_append, brandCount]

theorem brandCount_brandHintStep (ctx : RankCtx) (item : ProductRecord)
    (st : ScoreState) :
    brandCount (brandHintStep ctx item st).reasons = brandCount st.reasons := by
  unfold brandHintStep
  try dsimp only
  repeat' split
  all_goals simp [ScoreState.tag, ScoreState.matched, ScoreState.add,
    brandCount_append, brandCount]

theorem brandCount_visualStep (ctx : RankCtx) (item : ProductRecord)
    (st : ScoreState) :
    brandCount (visualStep ctx item st).reasons = brandCount st.reasons := by
  unfold visualStep
  try dsimp only
  repeat' split
  all_goals simp [ScoreState.tag, ScoreState.matched, ScoreState.add,
    brandCount_append, brandCount]

theorem brandCount_packagingStep (ctx : RankCtx) (item : ProductRecord)
    (st : ScoreState) :
    brandCount (packagingStep ctx item st).reasons = brandCount st.reasons := by
  unfold packagingStep
  try dsimp only
  repeat' split
  all_goals simp [ScoreState.tag, ScoreState.matched, ScoreState.add,
    brandCount_append, brandCount]

theorem brandCount_volumeStep (ctx : RankCtx) (item : ProductRecord)
    (st : ScoreState) :
    brandCount (volumeStep ctx item st).reasons = brandCount st.reasons := by
  unfold volumeStep
  try dsimp only
  repeat' split
  all_goals simp [ScoreState.tag, ScoreState.matched, ScoreState.add,
    brandCount_append, brandCount]

theorem brandCount_abvStep (ctx : RankCtx) (item : ProductRecord)
    (st : ScoreState) :
    brandCount (abvStep ctx item st).reasons = brandCount st.reasons := by
  unfold abvStep
  try dsimp only
  repeat' split
  all_goals simp [ScoreState.tag, ScoreState.matched, ScoreState.add,
    brandCount_append, brandCount]

theorem brandCount_sugarStep (ctx : RankCtx) (item : ProductRecord)
    (st : ScoreState) :
    brandCount (sugarStep ctx item st).reasons = brandCount st.reasons := by
  unfold sugarStep
  try dsimp only
  repeat' split
  all_goals simp [ScoreState.tag, ScoreState.matched, ScoreState.add,
    brandCount_append, brandCount]

theorem brandCount_kcalStep (ctx : RankCtx) (st : ScoreState) :
    brandCount (kcalStep ctx st).reasons = brandCount st.reasons := by
  unfold kcalStep
  repeat' split
  all_goals rfl

theorem scoreItem_brandCount (ctx : RankCtx) (item : ProductRecord)
    (r0 : RankedRow) (h : scoreItem ctx item = some r0) :
    brandCount r0.reasons ≤ 1 := by
  unfold scoreItem at h
  dsimp only at h
  split at h
  · exact absurd h (by simp)
  · have heq := congrArg RankedRow.reasons (Option.some_inj.mp h)
    rw [← heq]
    dsimp only
    rw [brandCount_kcalStep, brandCount_sugarStep, brandCount_abvStep,
      brandCount_volumeStep, brandCount_packagingStep, brandCount_visualStep,
      brandCount_brandHintStep, brandCount_keywordStep, brandCount_flavorStep,
      brandCount_productStep]
    apply brandCount_brandStep
    rw [brandCount_barcodeStep]
    rfl

def exQueryOcr : RankQuery := { ocr_lines := ["cola"] }

def exRowOcr : RankedRow :=
  (rank_candidates [exItemCola] exQueryOcr).headD exDummyRow

/-- C10: for every ranked candidate, at most one of the three brand tags
`brand_structured_exact`, `brand_exact`, `brand_fuzzy` appears among its
reasons (the three contributions are an if/elif/else chain), so brand
signals never stack on one candidate. -/
theorem C10_brand_signals_exclusive (items : List ProductRecord)
    (q : RankQuery) (row : RankedRow) (hmem : row ∈ rank_candidates items q) :
    row.reasons.count "brand_structured_exact" + row.reasons.count "brand_exact" +
      row.reasons.count "brand_fuzzy" ≤ 1 := by
  obtain ⟨item, r0, hscore, _, _, hreas⟩ := rank_mem_score items q row hmem
  have hb := scoreItem_brandCount _ _ _ hscore
  rw [hreas]
  exact hb

/-- C10 witness: the theorem applied to a concrete ranked row whose
reasons contain `brand_exact`. -/
theorem C10_brand_signals_exclusive_witness :
    exRowOcr.reasons.count "brand_structured_exact" +
      exRowOcr.reasons.count "brand_exact" +
      exRowOcr.reasons.count "brand_fuzzy" ≤ 1 :=
  C10_brand_signals_exclusive [exItemCola] exQueryOcr exRowOcr (by decide)

/-! ### Claim C9 — catalog loading degradation -/

/-- C9 (counterexample): a catalog file that exists but whose contents
fail to parse as JSON makes loading raise (`json.loads` is unguarded),
rather than degrading to an empty catalog. -/
theorem C9_counterexample :
    load_items (.unreadable "not json") = .error "json.JSONDecodeError" := rfl

/-- C9 (amended): a missing catalog file degrades to the empty catalog,
every `rank_candidates` call on an empty catalog returns the empty list,
and a JSON payload that is not a list also degrades to empty; but a file
whose contents fail to parse as JSON raises (see `C9_counterexample`). -/
theorem C9_amended (j : Json) :
    load_items .missing = .ok [] ∧
    (∀ q : RankQuery, rank_candidates [] q = []) ∧
    ((∀ rows, j ≠ .arr rows) → load_items (.parsed j) = .ok []) := by
  refine ⟨rfl, fun q => rfl, ?_⟩
  intro hne
  cases j with
  | arr rows => exact absurd rfl (hne rows)
  | null => rfl
  | bool b => rfl
  | num q => rfl
  | str s => rfl
  | obj fields => rfl

/-- C9 witness: the amended theorem applied to a concrete non-list JSON
payload. -/
theorem C9_amended_witness :
    load_items (.parsed (.obj [])) = .ok [] :=
  (C9_amended (.obj [])).2.2 (fun _ h => Json.noConfusion h)

/-! ### Claim C7 — the tri-state sugar_free extraction -/

/-- C7 (counterexample): the structured extractor returns `null` (unknown)
both for a bare "sugar" mention — the claim says `false` — and for "diet"
— the claim counts it as a truth hint.  (The bare-"sugar" ⇒ false rule
exists only in the catalog-side `_looks_zero_sugar`, not in the
extractor, and "diet" is in neither hint set.) -/
theorem C7_counterexample :
    (extract_structured_ocr_fields [⟨"sugar", 1, none⟩] []).sugar_free = none ∧
    (extract_structured_ocr_fields [⟨"diet", 1, none⟩] []).sugar_free = none := by
  exact ⟨by decide, by decide⟩

/-- C7 (amended): the extracted `sugar_free` field is tri-state — `true`
exactly when the cleaned OCR blob contains one of the hints "zero",
"sugar free", "sukkerfri", "light", "max"; `false` exactly when it
contains none of those but one of "original", "regular", "classic";
otherwise `null` (in particular for a bare "sugar" mention). -/
theorem C7_amended (ocr_rows : List OcrRow) (dets : List TextDetection) :
    ((extract_structured_ocr_fields ocr_rows dets).sugar_free = some true ↔
      ∃ h ∈ sugarTrueHints, containsSub h.data (ocrBlob ocr_rows) = true) ∧
    ((extract_structured_ocr_fields ocr_rows dets).sugar_free = some false ↔
      (¬∃ h ∈ sugarTrueHints, containsSub h.data (ocrBlob ocr_rows) = true) ∧
        ∃ h ∈ sugarFalseHints, containsSub h.data (ocrBlob ocr_rows) = true) ∧
    ((extract_structured_ocr_fields ocr_rows dets).sugar_free = none ↔
      (¬∃ h ∈ sugarTrueHints, containsSub h.data (ocrBlob ocr_rows) = true) ∧
        ¬∃ h ∈ sugarFalseHints, containsSub h.data (ocrBlob ocr_rows) = true) := by
  have hsf : (extract_structured_ocr_fields ocr_rows dets).sugar_free =
      (if sugarTrueHints.any (fun t => containsSub t.data (ocrBlob ocr_rows)) then
        some true
      else if sugarFalseHints.any (fun t => containsSub t.data (ocrBlob ocr_rows)) then
        some false
      else none) := rfl
  rw [hsf]
  by_cases ht : sugarTrueHints.any (fun t => containsSub t.data (ocrBlob ocr_rows))
  · rw [if_pos ht]
    simp only [List.any_eq_true] at ht
    simp [ht]
  · rw [if_neg ht]
    simp only [List.any_eq_true] at ht
    by_cases hf : sugarFalseHints.any (fun t => containsSub t.data (ocrBlob ocr_rows))
    · rw [if_pos hf]
      simp only [List.any_eq_true] at hf
      simp [ht, hf]
    · rw [if_neg hf]
      simp only [List.any_eq_true] at hf
      simp [ht, hf]

/-! ### Claim C8 — normalization idempotence -/

theorem char_toNat_ofNat (n : ℕ) (h : n.isValidChar) : (Char.ofNat n).toNat = n := by
  unfold Char.ofNat
  rw [dif_pos h]
  unfold Char.ofNatAux Char.toNat
  have hlt : n < 2^32 := by
    rcases h with h | h
    · omega
    · omega
  simp [UInt32.toNat, Nat.mod_eq_of_lt hlt]

/-- Not an ASCII uppercase letter. -/
def notUpper (c : Char) : Prop := ¬(c.toNat ≥ 65 ∧ c.toNat ≤ 90)

theorem toLower_eq_of_notUpper (c : Char) (h : notUpper c) : c.toLower = c := by
  unfold Char.toLower
  exact if_neg h

theorem notUpper_toLower (c : Char) : notUpper c.toLower := by
  unfold Char.toLower notUpper
  dsimp only
  split
  · rename_i h
    have hv : (c.toNat + 32).isValidChar := by
      left
      omega
    rw [char_toNat_ofNat _ hv]
    omega
  · rename_i h
    exact h

theorem space_not_word (c : Char) (h : pyIsSpace c = true) : isWordChar c = false := by
  simp only [pyIsSpace, Bool.or_eq_true, decide_eq_true_eq] at h
  rcases h with ((((h | h) | h) | h) | h) | h <;> subst h <;> decide

/-! Words of a string are non-empty and space-free. -/

theorem wordsOfAux_words :
    ∀ (l acc : List Char), (∀ c ∈ acc, pyIsSpace c = false) →
      ∀ w ∈ wordsOfAux l acc, w ≠ [] ∧ ∀ c ∈ w, pyIsSpace c = false := by
  intro l
  induction l with
  | nil =>
    intro acc hacc w hw
    unfold wordsOfAux at hw
    split at hw
    · simp at hw
    · rename_i hne
      rw [List.mem_singleton] at hw
      subst hw
      refine ⟨by simpa using hne, ?_⟩
      intro c hc
      exact hacc c (List.mem_reverse.mp hc)
  | cons c t ih =>
    intro acc hacc w hw
    unfold wordsOfAux at hw
    split at hw
    · rename_i hc
      split at hw
      · exact ih [] (by simp) w hw
      · rename_i hne
        rcases List.mem_cons.mp hw with hw | hw
        · subst hw
          refine ⟨by simpa using hne, ?_⟩
          intro d hd
          exact hacc d (List.mem_reverse.mp hd)
        · exact ih [] (by simp) w hw
    · rename_i hc
      refine ih (c :: acc) ?_ w hw
      intro d hd
      rcases List.mem_cons.mp hd with hd | hd
      · subst hd
        simpa using hc
      · exact hacc d hd

theorem wordsOf_words (l : List Char) :
    ∀ w ∈ wordsOf l, w ≠ [] ∧ ∀ c ∈ w, pyIsSpace c = false :=
  wordsOfAux_words l [] (by simp)

/-! The `split`/`join` round trip. -/

theorem takeWhile_word_append (t : List Char)
    (ht : t = [] ∨ ∃ c t2, t = c :: t2 ∧ pyIsSpace c = true) :
    ∀ w : List Char, (∀ c ∈ w, pyIsSpace c = false) →
      (w ++ t).takeWhile (fun d => !pyIsSpace d) = w ∧
      (w ++ t).dropWhile (fun d => !pyIsSpace d) = t := by
  intro w
  induction w with
  | nil =>
    intro _
    rcases ht with ht | ⟨c, t2, ht, hc⟩
    · subst ht; exact ⟨rfl, rfl⟩
    · subst ht
      constructor
      · rw [List.nil_append, List.takeWhile_cons, if_neg (by simp [hc])]
      · rw [List.nil_append, List.dropWhile_cons, if_neg (by simp [hc])]
  | cons a w2 ih =>
    intro hw
    have ha : pyIsSpace a = false := hw a (List.mem_cons_self _ _)
    have ih2 := ih (fun c hc => hw c (List.mem_cons_of_mem _ hc))
    constructor
    · rw [List.cons_append, List.takeWhile_cons, if_pos (by simp [ha]), ih2.1]
    · rw [List.cons_append, List.dropWhile_cons, if_pos (by simp [ha]), ih2.2]

theorem wordsOf_word_append (w t : List Char) (hw : w ≠ [])
    (hwc : ∀ c ∈ w, pyIsSpace c = false)
    (ht : t = [] ∨ ∃ c t2, t = c :: t2 ∧ pyIsSpace c = true) :
    wordsOf (w ++ t) = w :: wordsOf t := by
  rcases w with _ | ⟨c, w2⟩
  · exact absurd rfl hw
  · have hc : pyIsSpace c = false := hwc c (List.mem_cons_self _ _)
    have htw := takeWhile_word_append t ht w2
      (fun d hd => hwc d (List.mem_cons_of_mem _ hd))
    rw [List.cons_append, wordsOf_cons, if_neg (by simp [hc]), htw.1, htw.2]

theorem wordsOf_joinSpace (ws : List (List Char))
    (h : ∀ w ∈ ws, w ≠ [] ∧ ∀ c ∈ w, pyIsSpace c = false) :
    wordsOf (joinSpace ws) = ws := by
  induction ws with
  | nil => rfl
  | cons w ws2 ih =>
    rcases ws2 with _ | ⟨w2, ws3⟩
    · have hw := h w (List.mem_cons_self _ _)
      have := wordsOf_word_append w [] hw.1 hw.2 (Or.inl rfl)
      simpa [joinSpace] using this
    · have hw := h w (List.mem_cons_self _ _)
      rw [show joinSpace (w :: w2 :: ws3) = w ++ ' ' :: joinSpace (w2 :: ws3) from rfl]
      rw [wordsOf_word_append w (' ' :: joinSpace (w2 :: ws3)) hw.1 hw.2
        (Or.inr ⟨' ', _, rfl, by decide⟩)]
      rw [wordsOf_cons, if_pos (by decide)]
      rw [ih (fun x hx => h x (List.mem_cons_of_mem _ hx))]

theorem collapse_collapse (l : List Char) : collapse (collapse l) = collapse l := by
  unfold collapse
  rw [wordsOf_joinSpace _ (wordsOf_words l)]

/-! `strip` is a no-op on a collapsed string. -/

theorem dropWhile_space_eq_self (l : List Char)
    (h : l = [] ∨ ∃ c t, l = c :: t ∧ pyIsSpace c = false) :
    l.dropWhile pyIsSpace = l := by
  rcases h with h | ⟨c, t, h, hc⟩
  · subst h; rfl
  · subst h
    rw [List.dropWhile_cons, if_neg (by simp [hc])]

theorem joinSpace_head_tail (w : List Char) (ws : List (List Char)) :
    ∃ t, joinSpace (w :: ws) = w ++ t ∧
      (t = [] ∨ ∃ c t2, t = c :: t2 ∧ pyIsSpace c = true) := by
  rcases ws with _ | ⟨w2, ws3⟩
  · exact ⟨[], by simp [joinSpace], Or.inl rfl⟩
  · exact ⟨' ' :: joinSpace (w2 :: ws3), rfl, Or.inr ⟨' ', _, rfl, by decide⟩⟩

theorem joinSpace_getLast (ws : List (List Char)) (hne : ws ≠ [])
    (h : ∀ w ∈ ws, w ≠ [] ∧ ∀ c ∈ w, pyIsSpace c = false) :
    ∃ c, (joinSpace ws).getLast? = some c ∧ pyIsSpace c = false := by
  induction ws with
  | nil => exact absurd rfl hne
  | cons w ws2 ih =>
    rcases ws2 with _ | ⟨w2, ws3⟩
    · have hw := h w (List.mem_cons_self _ _)
      rcases List.eq_nil_or_concat w with hnil | ⟨v, a, hva⟩
      · exact absurd hnil hw.1
      · refine ⟨a, ?_, ?_⟩
        · rw [show joinSpace [w] = w from rfl, hva, List.concat_eq_append]
          exact List.getLast?_concat v
        · exact hw.2 a (by rw [hva]; simp)
    · rcases ih (by simp) (fun x hx => h x (List.mem_cons_of_mem _ hx)) with ⟨a, ha, has⟩
      refine ⟨a, ?_, has⟩
      rw [show joinSpace (w :: w2 :: ws3) = w ++ ' ' :: joinSpace (w2 :: ws3) from rfl]
      rw [List.getLast?_append_of_ne_nil _ (by simp : (' ' :: joinSpace (w2 :: ws3)) ≠ [])]
      rw [List.getLast?_cons, ha]
      rfl

theorem pyStrip_joinSpace (ws : List (List Char))
    (h : ∀ w ∈ ws, w ≠ [] ∧ ∀ c ∈ w, pyIsSpace c = false) :
    pyStrip (joinSpace ws) = joinSpace ws := by
  rcases ws with _ | ⟨w, ws2⟩
  · rfl
  · have hd : (joinSpace (w :: ws2)).dropWhile pyIsSpace = joinSpace (w :: ws2) := by
      apply dropWhile_space_eq_self
      have hw := h w (List.mem_cons_self _ _)
      rcases joinSpace_head_tail w ws2 with ⟨t, hjt, _⟩
      rcases hwc : w with _ | ⟨c, t2⟩
      · exact absurd hwc hw.1
      · right
        refine ⟨c, t2 ++ t, ?_, hw.2 c (by rw [hwc]; exact List.mem_cons_self _ _)⟩
        rw [hwc] at hjt
        exact hjt.trans (List.cons_append c t2 t)
    unfold pyStrip
    rw [hd]
    have hrd : (joinSpace (w :: ws2)).reverse.dropWhile pyIsSpace = (joinSpace (w :: ws2)).reverse := by
      apply dropWhile_space_eq_self
      rcases joinSpace_getLast (w :: ws2) (by simp) h with ⟨a, ha, has⟩
      right
      rcases hr : (joinSpace (w :: ws2)).reverse with _ | ⟨b, rt⟩
      · have hnil : joinSpace (w :: ws2) = [] := by
          have := congrArg List.reverse hr
          simpa using this
        rw [hnil] at ha
        simp at ha
      · refine ⟨b, rt, rfl, ?_⟩
        have hh : (joinSpace (w :: ws2)).reverse.head? = some b := by rw [hr]; rfl
        rw [List.head?_reverse] at hh
        rw [ha] at hh
        cases hh
        exact has
    rw [hrd, List.reverse_reverse]

/-! Membership propagation: each later normalization stage only introduces
characters from a known safe set. -/

theorem mem_joinSpace (ws : List (List Char)) (c : Char) (hc : c ∈ joinSpace ws) :
    c = ' ' ∨ ∃ w ∈ ws, c ∈ w := by
  induction ws with
  | nil => simp [joinSpace] at hc
  | cons w ws2 ih =>
    rcases ws2 with _ | ⟨w2, ws3⟩
    · exact Or.inr ⟨w, List.mem_cons_self _ _, hc⟩
    · rw [show joinSpace (w :: w2 :: ws3) = w ++ ' ' :: joinSpace (w2 :: ws3) from rfl] at hc
      rcases List.mem_append.mp hc with hc | hc
      · exact Or.inr ⟨w, List.mem_cons_self _ _, hc⟩
      · rcases List.mem_cons.mp hc with hc | hc
        · exact Or.inl hc
        · rcases ih hc with hc | ⟨x, hx, hcx⟩
          · exact Or.inl hc
          · exact Or.inr ⟨x, List.mem_cons_of_mem _ hx, hcx⟩

theorem mem_wordsOfAux (l : List Char) :
    ∀ (acc : List Char) (w : List Char), w ∈ wordsOfAux l acc →
      ∀ c ∈ w, c ∈ l ∨ c ∈ acc := by
  induction l with
  | nil =>
    intro acc w hw c hc
    unfold wordsOfAux at hw
    split at hw
    · simp at hw
    · rw [List.mem_singleton] at hw
      subst hw
      exact Or.inr (List.mem_reverse.mp hc)
  | cons a t ih =>
    intro acc w hw c hc
    unfold wordsOfAux at hw
    split at hw
    · split at hw
      · rcases ih [] w hw c hc with h | h
        · exact Or.inl (List.mem_cons_of_mem _ h)
        · simp at h
      · rcases List.mem_cons.mp hw with hw | hw
        · subst hw
          exact Or.inr (List.mem_reverse.mp hc)
        · rcases ih [] w hw c hc with h | h
          · exact Or.inl (List.mem_cons_of_mem _ h)
          · simp at h
    · rcases ih (a :: acc) w hw c hc with h | h
      · exact Or.inl (List.mem_cons_of_mem _ h)
      · rcases List.mem_cons.mp h with h | h
        · subst h
          exact Or.inl (List.mem_cons_self _ _)
        · exact Or.inr h

theorem mem_collapse (l : List Char) (c : Char) (hc : c ∈ collapse l) :
    c = ' ' ∨ c ∈ l := by
  unfold collapse at hc
  rcases mem_joinSpace _ c hc with h | ⟨w, hw, hcw⟩
  · exact Or.inl h
  · rcases mem_wordsOfAux l [] w hw c hcw with h | h
    · exact Or.inr h
    · simp at h

theorem mem_replaceGo (pat rep : List Char) (c : Char) :
    ∀ (s : List Char) (n : ℕ), c ∈ replaceGo pat rep s n → c ∈ s ∨ c ∈ rep := by
  intro s
  induction s with
  | nil =>
    intro n hc
    cases n <;> simp [replaceGo] at hc
  | cons a t ih =>
    intro n hc
    cases n with
    | succ m =>
      rcases ih m hc with h | h
      · exact Or.inl (List.mem_cons_of_mem _ h)
      · exact Or.inr h
    | zero =>
      rw [show replaceGo pat rep (a :: t) 0 =
        if ¬pat.isEmpty ∧ pat.isPrefixOf (a :: t) then
          rep ++ replaceGo pat rep t (pat.length - 1)
        else a :: replaceGo pat rep t 0 from rfl] at hc
      split at hc
      · rcases List.mem_append.mp hc with h | h
        · exact Or.inr h
        · rcases ih _ h with h2 | h2
          · exact Or.inl (List.mem_cons_of_mem _ h2)
          · exact Or.inr h2
      · rcases List.mem_cons.mp hc with h | h
        · exact Or.inl (h ▸ List.mem_cons_self _ _)
        · rcases ih 0 h with h2 | h2
          · exact Or.inl (List.mem_cons_of_mem _ h2)
          · exact Or.inr h2

theorem mem_removePromo_aux (c : Char) :
    ∀ (ps : List String) (l : List Char),
      c ∈ ps.foldl (fun acc p => replaceStr p.data [' '] acc) l → c ∈ l ∨ c = ' ' := by
  intro ps
  induction ps with
  | nil => intro l hc; exact Or.inl hc
  | cons p ps2 ih =>
    intro l hc
    rcases ih _ hc with h | h
    · rcases mem_replaceGo p.data [' '] c l 0 h with h2 | h2
      · exact Or.inl h2
      · exact Or.inr (List.mem_singleton.mp h2)
    · exact Or.inr h

theorem mem_removePromo (l : List Char) (c : Char) (hc : c ∈ removePromo l) :
    c ∈ l ∨ c = ' ' :=
  mem_removePromo_aux c promoStopWords l hc

theorem mem_fixWord (w : List Char) (c : Char) (hc : c ∈ fixWord w) :
    c ∈ w ∨ c = 'l' := by
  unfold fixWord at hc
  split at hc
  · rcases List.mem_append.mp hc with h | h
    · exact Or.inl (List.dropLast_subset w h)
    · exact Or.inr (List.mem_singleton.mp h)
  · exact Or.inl hc

theorem mem_fix1Aux (c : Char) :
    ∀ (l acc : List Char), c ∈ fix1Aux l acc → c ∈ l ∨ c ∈ acc ∨ c = 'l' := by
  intro l
  induction l with
  | nil =>
    intro acc hc
    unfold fix1Aux at hc
    split at hc
    · simp at hc
    · rcases mem_fixWord _ c hc with h | h
      · exact Or.inr (Or.inl (List.mem_reverse.mp h))
      · exact Or.inr (Or.inr h)
  | cons a t ih =>
    intro acc hc
    unfold fix1Aux at hc
    split at hc
    · rcases ih (a :: acc) hc with h | h | h
      · exact Or.inl (List.mem_cons_of_mem _ h)
      · rcases List.mem_cons.mp h with h2 | h2
        · exact Or.inl (h2 ▸ List.mem_cons_self _ _)
        · exact Or.inr (Or.inl h2)
      · exact Or.inr (Or.inr h)
    · rcases List.mem_append.mp hc with h | h
      · split at h
        · simp at h
        · rcases mem_fixWord _ c h with h2 | h2
          · exact Or.inr (Or.inl (List.mem_reverse.mp h2))
          · exact Or.inr (Or.inr h2)
      · rcases List.mem_cons.mp h with h2 | h2
        · exact Or.inl (h2 ▸ List.mem_cons_self _ _)
        · rcases ih [] h2 with h3 | h3 | h3
          · exact Or.inl (List.mem_cons_of_mem _ h3)
          · simp at h3
          · exact Or.inr (Or.inr h3)

theorem mem_fix1 (l : List Char) (c : Char) (hc : c ∈ fix1 l) : c ∈ l ∨ c = 'l' := by
  rcases mem_fix1Aux c l [] hc with h | h | h
  · exact Or.inl h
  · simp at h
  · exact Or.inr h

theorem mem_cleanChars (keep : Char → Bool) (l : List Char) (c : Char)
    (hc : c ∈ cleanChars keep l) : c ∈ l ∨ c = ' ' := by
  unfold cleanChars at hc
  rcases List.mem_map.mp hc with ⟨a, _, ha⟩
  by_cases h : keep a
  · rw [if_pos h] at ha
    subst ha
    exact Or.inl (by assumption)
  · rw [if_neg h] at ha
    exact Or.inr ha.symm

theorem mem_replaceChars (l : List Char) (c : Char) (hc : c ∈ replaceChars l) :
    c ∈ l ∨ c ∈ ['a', 'e', 'o', 'l'] := by
  unfold replaceChars at hc
  rcases List.mem_flatMap.mp hc with ⟨a, hal, ha⟩
  split at ha
  · rcases List.mem_cons.mp ha with h | h
    · exact Or.inr (by rw [h]; decide)
    · exact Or.inr (by rw [List.mem_singleton.mp h]; decide)
  · split at ha
    · exact Or.inr (by rw [List.mem_singleton.mp ha]; decide)
    · split at ha
      · exact Or.inr (by rw [List.mem_singleton.mp ha]; decide)
      · split at ha
        · exact Or.inr (by rw [List.mem_singleton.mp ha]; decide)
        · split at ha
          · exact Or.inr (by rw [List.mem_singleton.mp ha]; decide)
          · exact Or.inl ((List.mem_singleton.mp ha) ▸ hal)

/-! No-op lemmas for each stage under the output character-class
invariants. -/

theorem lowerList_noop (l : List Char) (h : ∀ c ∈ l, notUpper c) :
    lowerList l = l := by
  unfold lowerList
  rw [List.map_congr_left (fun c hc => toLower_eq_of_notUpper c (h c hc))]
  exact List.map_id l

theorem cleanChars_noop (l : List Char) (h : ∀ c ∈ l, keepNorm c = true) :
    cleanChars keepNorm l = l := by
  unfold cleanChars
  rw [List.map_congr_left (fun c hc => if_pos (h c hc))]
  exact List.map_id l

theorem replaceChars_noop (l : List Char) (h : ∀ c ∈ l, keepNorm c = true ∧ c ≠ '0') :
    replaceChars l = l := by
  unfold replaceChars
  induction l with
  | nil => rfl
  | cons a t ih =>
    have ha := h a (List.mem_cons_self _ _)
    have h1 : a ≠ 'æ' := by intro he; rw [he] at ha; exact absurd ha.1 (by decide)
    have h2 : a ≠ 'ø' := by intro he; rw [he] at ha; exact absurd ha.1 (by decide)
    have h3 : a ≠ 'å' := by intro he; rw [he] at ha; exact absurd ha.1 (by decide)
    have h5 : a ≠ '|' := by intro he; rw [he] at ha; exact absurd ha.1 (by decide)
    rw [List.flatMap_cons]
    rw [if_neg h1, if_neg h2, if_neg h3, if_neg ha.2, if_neg h5]
    rw [ih (fun c hc => h c (List.mem_cons_of_mem _ hc))]
    rfl

theorem replaceStr_noop (pat : List Char) (rep : List Char) :
    ∀ s : List Char, containsSub pat s = false → replaceStr pat rep s = s := by
  intro s
  induction s with
  | nil => intro _; rfl
  | cons c t ih =>
    intro h
    rw [show containsSub pat (c :: t) = (pat.isPrefixOf (c :: t) || containsSub pat t) from rfl] at h
    rcases Bool.or_eq_false_iff.mp h with ⟨hp, hct⟩
    rw [replaceStr_cons, if_neg (by simp [hp]), ih hct]

theorem removePromo_noop_aux :
    ∀ (ps : List String) (l : List Char),
      (∀ p ∈ ps, containsSub p.data l = false) →
      ps.foldl (fun acc p => replaceStr p.data [' '] acc) l = l := by
  intro ps
  induction ps with
  | nil => intro l _; rfl
  | cons p ps2 ih =>
    intro l h
    rw [List.foldl_cons, replaceStr_noop p.data [' '] l (h p (List.mem_cons_self _ _))]
    exact ih l (fun q hq => h q (List.mem_cons_of_mem _ hq))

theorem removePromo_noop (l : List Char)
    (h : ∀ p ∈ promoStopWords, containsSub p.data l = false) :
    removePromo l = l :=
  removePromo_noop_aux promoStopWords l h

/-! Character-class invariants of the `_normalize_text` output. -/

theorem cleanChars_keep (l : List Char) :
    ∀ c ∈ cleanChars keepNorm l, keepNorm c = true := by
  intro c hc
  unfold cleanChars at hc
  rcases List.mem_map.mp hc with ⟨a, _, ha⟩
  by_cases h : keepNorm a
  · rw [if_pos h] at ha
    rw [← ha]
    exact h
  · rw [if_neg h] at ha
    rw [← ha]
    decide

theorem lowerList_notUpper (l : List Char) : ∀ c ∈ lowerList l, notUpper c := by
  intro c hc
  rcases List.mem_map.mp hc with ⟨a, _, ha⟩
  rw [← ha]
  exact notUpper_toLower a

theorem replaceChars_no0 (l : List Char) : ∀ c ∈ replaceChars l, c ≠ '0' := by
  intro c hc
  unfold replaceChars at hc
  rcases List.mem_flatMap.mp hc with ⟨a, _, ha⟩
  split at ha
  · rcases List.mem_cons.mp ha with h | h
    · rw [h]; decide
    · rw [List.mem_singleton.mp h]; decide
  · split at ha
    · rw [List.mem_singleton.mp ha]; decide
    · split at ha
      · rw [List.mem_singleton.mp ha]; decide
      · split at ha
        · rw [List.mem_singleton.mp ha]; decide
        · split at ha
          · rw [List.mem_singleton.mp ha]; decide
          · rename_i h1 h2 h3 h4 h5
            rw [List.mem_singleton.mp ha]
            exact h4

theorem normChars_keep (u : List Char) : ∀ c ∈ normChars u, keepNorm c = true := by
  intro c hc
  have hc2 : c ∈ collapse (fix1 (removePromo (collapse
      (cleanChars keepNorm (replaceChars (lowerList (pyStrip u))))))) := hc
  rcases mem_collapse _ c hc2 with h | h
  · rw [h]; decide
  · rcases mem_fix1 _ c h with h | h
    · rcases mem_removePromo _ c h with h | h
      · rcases mem_collapse _ c h with h | h
        · rw [h]; decide
        · exact cleanChars_keep _ c h
      · rw [h]; decide
    · rw [h]; decide

theorem notUpper_of_decide (c : Char)
    (h : decide (c.toNat ≥ 65 ∧ c.toNat ≤ 90) = false) : notUpper c :=
  of_decide_eq_false h

theorem normChars_notUpper (u : List Char) : ∀ c ∈ normChars u, notUpper c := by
  intro c hc
  have hc2 : c ∈ collapse (fix1 (removePromo (collapse
      (cleanChars keepNorm (replaceChars (lowerList (pyStrip u))))))) := hc
  rcases mem_collapse _ c hc2 with h | h
  · rw [h]; exact notUpper_of_decide _ (by decide)
  · rcases mem_fix1 _ c h with h | h
    · rcases mem_removePromo _ c h with h | h
      · rcases mem_collapse _ c h with h | h
        · rw [h]; exact notUpper_of_decide _ (by decide)
        · rcases mem_cleanChars keepNorm _ c h with h | h
          · rcases mem_replaceChars _ c h with h | h
            · exact lowerList_notUpper _ c h
            · rcases (by simpa using h : c = 'a' ∨ c = 'e' ∨ c = 'o' ∨ c = 'l')
                with h | h | h | h <;> rw [h] <;> exact notUpper_of_decide _ (by decide)
          · rw [h]; exact notUpper_of_decide _ (by decide)
      · rw [h]; exact notUpper_of_decide _ (by decide)
    · rw [h]; exact notUpper_of_decide _ (by decide)

theorem normChars_no0 (u : List Char) : ∀ c ∈ normChars u, c ≠ '0' := by
  intro c hc
  have hc2 : c ∈ collapse (fix1 (removePromo (collapse
      (cleanChars keepNorm (replaceChars (lowerList (pyStrip u))))))) := hc
  rcases mem_collapse _ c hc2 with h | h
  · rw [h]; decide
  · rcases mem_fix1 _ c h with h | h
    · rcases mem_removePromo _ c h with h | h
      · rcases mem_collapse _ c h with h | h
        · rw [h]; decide
        · rcases mem_cleanChars keepNorm _ c h with h | h
          · exact replaceChars_no0 _ c h
          · rw [h]; decide
      · rw [h]; decide
    · rw [h]; decide

/-! `fix1` is idempotent, distributes over non-word separators, and fixes
every word of its own output. -/

theorem dropWhile_head (p : Char → Bool) (l : List Char) :
    l.dropWhile p = [] ∨ ∃ d t2, l.dropWhile p = d :: t2 ∧ p d = false := by
  induction l with
  | nil => exact Or.inl rfl
  | cons a t ih =>
    by_cases h : p a
    · rw [List.dropWhile_cons, if_pos h]
      exact ih
    · rw [List.dropWhile_cons, if_neg h]
      exact Or.inr ⟨a, t, rfl, by simpa using h⟩

theorem takeWhile_dropWhile_length (p : Char → Bool) (l : List Char) :
    (l.takeWhile p).length + (l.dropWhile p).length = l.length := by
  conv_rhs => rw [← List.takeWhile_append_dropWhile p l]
  rw [List.length_append]

theorem fixWord_length (w : List Char) : (fixWord w).length = w.length := by
  unfold fixWord
  split
  · rename_i h
    rw [List.length_append, List.length_dropLast]
    have := h.1
    simp only [List.length_singleton]
    omega
  · rfl

theorem fixWord_idem (w : List Char) : fixWord (fixWord w) = fixWord w := by
  by_cases h : w.length ≥ 3 ∧ w.getLast? = some '1' ∧ w.dropLast.all isLowerAlpha
  · have h1 : fixWord w = w.dropLast ++ ['l'] := by unfold fixWord; rw [if_pos h]
    rw [h1]
    unfold fixWord
    rw [if_neg]
    intro hcon
    rcases hcon with ⟨_, hlast, _⟩
    rw [List.getLast?_concat] at hlast
    exact absurd hlast (by decide)
  · have h1 : fixWord w = w := by unfold fixWord; rw [if_neg h]
    rw [h1, h1]

theorem fix1_allWord (w : List Char) (h : ∀ c ∈ w, isWordChar c = true) :
    fix1 w = fixWord w := by
  rcases w with _ | ⟨c, t⟩
  · rfl
  · rw [fix1_cons, if_pos (h c (List.mem_cons_self _ _))]
    rw [List.takeWhile_eq_self_iff.mpr (fun x hx => h x (List.mem_cons_of_mem _ hx))]
    rw [List.dropWhile_eq_nil_iff.mpr (fun x hx => h x (List.mem_cons_of_mem _ hx))]
    rw [show fix1 [] = [] from rfl, List.append_nil]

theorem fix1Aux_append (b : List Char) (d : Char) (hd : isWordChar d = false) :
    ∀ (a acc : List Char),
      fix1Aux (a ++ d :: b) acc = fix1Aux a acc ++ d :: fix1Aux b [] := by
  intro a
  induction a with
  | nil =>
    intro acc
    rw [List.nil_append]
    simp [fix1Aux, hd]
  | cons e a2 ih =>
    intro acc
    rw [List.cons_append]
    by_cases he : isWordChar e
    · simp only [fix1Aux, he, if_true]
      exact ih (e :: acc)
    · simp only [fix1Aux, he, if_false, Bool.false_eq_true]
      rw [ih []]
      simp [List.append_assoc]

theorem fix1_append (a b : List Char) (d : Char) (hd : isWordChar d = false) :
    fix1 (a ++ d :: b) = fix1 a ++ d :: fix1 b :=
  fix1Aux_append b d hd a []

theorem fix1_length_aux :
    ∀ (n : ℕ) (l : List Char), l.length ≤ n → (fix1 l).length = l.length := by
  intro n
  induction n with
  | zero =>
    intro l hl
    rw [List.eq_nil_of_length_eq_zero (Nat.le_zero.mp hl)]
    rfl
  | succ n ih =>
    intro l hl
    rcases l with _ | ⟨c, t⟩
    · rfl
    · rw [List.length_cons] at hl
      by_cases hc : isWordChar c
      · rw [fix1_cons, if_pos hc, List.length_append, fixWord_length, List.length_cons]
        have h1 : (t.dropWhile isWordChar).length ≤ n := by
          have := dropWhile_length_le isWordChar t
          omega
        rw [ih _ h1]
        have := takeWhile_dropWhile_length isWordChar t
        rw [List.length_cons]
        omega
      · rw [fix1_cons, if_neg hc, List.length_cons, List.length_cons, ih t (by omega)]

theorem fix1_length (l : List Char) : (fix1 l).length = l.length :=
  fix1_length_aux l.length l le_rfl

theorem fixWord_word (w : List Char) (h : ∀ c ∈ w, isWordChar c = true) :
    ∀ c ∈ fixWord w, isWordChar c = true := by
  intro c hc
  rcases mem_fixWord w c hc with h2 | h2
  · exact h c h2
  · rw [h2]; decide

theorem fix1_idem_aux :
    ∀ (n : ℕ) (l : List Char), l.length ≤ n → fix1 (fix1 l) = fix1 l := by
  intro n
  induction n with
  | zero =>
    intro l hl
    rw [List.eq_nil_of_length_eq_zero (Nat.le_zero.mp hl)]
    rfl
  | succ n ih =>
    intro l hl
    rcases l with _ | ⟨c, t⟩
    · rfl
    · rw [List.length_cons] at hl
      by_cases hc : isWordChar c
      · rw [fix1_cons, if_pos hc]
        have hword : ∀ x ∈ c :: t.takeWhile isWordChar, isWordChar x = true := by
          intro x hx
          rcases List.mem_cons.mp hx with hx | hx
          · rw [hx]; exact hc
          · exact List.mem_takeWhile_imp hx
        have hW : ∀ x ∈ fixWord (c :: t.takeWhile isWordChar), isWordChar x = true :=
          fixWord_word _ hword
        have hfixW : fix1 (fixWord (c :: t.takeWhile isWordChar)) =
            fixWord (c :: t.takeWhile isWordChar) := by
          rw [fix1_allWord _ hW, fixWord_idem]
        rcases dropWhile_head isWordChar t with htd | ⟨d, td2, htd, hdw⟩
        · rw [htd]
          rw [show fix1 [] = [] from rfl, List.append_nil]
          exact hfixW
        · rw [htd, fix1_cons, if_neg (by simp [hdw])]
          rw [fix1_append _ _ d (by simpa using hdw), hfixW]
          have h2 : td2.length ≤ n := by
            have h3 := dropWhile_length_le isWordChar t
            rw [htd, List.length_cons] at h3
            omega
          rw [ih td2 h2]
      · rw [fix1_cons, if_neg hc, fix1_cons, if_neg hc, ih t (by omega)]

theorem fix1_idem (l : List Char) : fix1 (fix1 l) = fix1 l :=
  fix1_idem_aux l.length l le_rfl

theorem fix1_joinSpace (ws : List (List Char)) :
    fix1 (joinSpace ws) = joinSpace (ws.map fix1) := by
  induction ws with
  | nil => rfl
  | cons w ws2 ih =>
    rcases ws2 with _ | ⟨w2, ws3⟩
    · simp [joinSpace]
    · rw [show joinSpace (w :: w2 :: ws3) = w ++ ' ' :: joinSpace (w2 :: ws3) from rfl]
      rw [fix1_append w (joinSpace (w2 :: ws3)) ' ' (by decide), ih]
      rw [show List.map fix1 (w :: w2 :: ws3) = fix1 w :: fix1 w2 :: List.map fix1 ws3 from rfl]
      rw [show joinSpace (fix1 w :: fix1 w2 :: List.map fix1 ws3) =
        fix1 w ++ ' ' :: joinSpace (fix1 w2 :: List.map fix1 ws3) from rfl]
      rw [show List.map fix1 (w2 :: ws3) = fix1 w2 :: List.map fix1 ws3 from rfl]

theorem fix1_words_fixed_aux :
    ∀ (n : ℕ) (y : List Char), y.length ≤ n → fix1 y = y →
      ∀ w ∈ wordsOf y, fix1 w = w := by
  intro n
  induction n with
  | zero =>
    intro y hl _ w hw
    rw [List.eq_nil_of_length_eq_zero (Nat.le_zero.mp hl)] at hw
    simp [wordsOf, wordsOfAux] at hw
  | succ n ih =>
    intro y hl hfix w hw
    rcases y with _ | ⟨c, t⟩
    · simp [wordsOf, wordsOfAux] at hw
    · rw [List.length_cons] at hl
      by_cases hc : pyIsSpace c
      · rw [wordsOf_cons, if_pos hc] at hw
        have hcw : isWordChar c = false := space_not_word c hc
        rw [fix1_cons, if_neg (by simp [hcw])] at hfix
        have h2 : fix1 t = t := by injection hfix
        exact ih t (by omega) h2 w hw
      · rw [wordsOf_cons, if_neg hc] at hw
        rcases dropWhile_head (fun d => !pyIsSpace d) t with htd | ⟨d, td2, htd, hdp⟩
        · rw [htd] at hw
          have h3 := List.takeWhile_append_dropWhile (p := fun d => !pyIsSpace d) (l := t)
          rw [htd, List.append_nil] at h3
          rw [h3] at hw
          simp [wordsOf, wordsOfAux] at hw
          rw [hw]
          exact hfix
        · have hdsp : pyIsSpace d = true := by simpa using hdp
          have hdw : isWordChar d = false := space_not_word d hdsp
          have h3 := List.takeWhile_append_dropWhile (p := fun d => !pyIsSpace d) (l := t)
          rw [htd] at h3
          have hsplit : c :: t = (c :: t.takeWhile (fun d => !pyIsSpace d)) ++ d :: td2 := by
            rw [List.cons_append, h3]
          rw [hsplit, fix1_append _ _ d hdw] at hfix
          have hinj := List.append_inj hfix (fix1_length _)
          have hfix2 : fix1 td2 = td2 := by injection hinj.2
          rw [htd] at hw
          rcases List.mem_cons.mp hw with hw | hw
          · rw [hw]
            exact hinj.1
          · rw [wordsOf_cons, if_pos hdsp] at hw
            have hlen2 : td2.length ≤ n := by
              have h4 := dropWhile_length_le (fun d => !pyIsSpace d) t
              rw [htd, List.length_cons] at h4
              omega
            exact ih td2 hlen2 hfix2 w hw

theorem fix1_collapse_fix1 (v : List Char) :
    fix1 (collapse (fix1 v)) = collapse (fix1 v) := by
  unfold collapse
  rw [fix1_joinSpace]
  have h := fix1_words_fixed_aux (fix1 v).length (fix1 v) le_rfl (fix1_idem v)
  have h2 : List.map fix1 (wordsOf (fix1 v)) = wordsOf (fix1 v) := by
    have h3 : List.map fix1 (wordsOf (fix1 v)) = List.map id (wordsOf (fix1 v)) :=
      List.map_congr_left (fun w hw => h w hw)
    rw [h3, List.map_id]
  rw [h2]

/-- On input whose normalized form contains no promo stop phrase, a second
`_normalize_text` pass is the identity: every stage of the pipeline fixes
the first pass's output. -/
theorem normChars_idem_of_nopromo (u : List Char)
    (h : ∀ p ∈ promoStopWords, containsSub p.data (normChars u) = false) :
    normChars (normChars u) = normChars u := by
  have htc : normChars u = collapse (fix1 (removePromo (collapse
      (cleanChars keepNorm (replaceChars (lowerList (pyStrip u))))))) := rfl
  have h1 : pyStrip (normChars u) = normChars u := by
    rw [htc]
    unfold collapse
    exact pyStrip_joinSpace _ (wordsOf_words _)
  have h2 : lowerList (normChars u) = normChars u :=
    lowerList_noop _ (normChars_notUpper u)
  have h3 : replaceChars (normChars u) = normChars u :=
    replaceChars_noop _ (fun c hc => ⟨normChars_keep u c hc, normChars_no0 u c hc⟩)
  have h4 : cleanChars keepNorm (normChars u) = normChars u :=
    cleanChars_noop _ (normChars_keep u)
  have h5 : collapse (normChars u) = normChars u := by
    rw [htc]
    exact collapse_collapse _
  have h6 : removePromo (normChars u) = normChars u :=
    removePromo_noop _ h
  have h7 : fix1 (normChars u) = normChars u := by
    rw [htc]
    exact fix1_collapse_fix1 _
  show collapse (fix1 (removePromo (collapse (cleanChars keepNorm
    (replaceChars (lowerList (pyStrip (normChars u)))))))) = normChars u
  rw [h1, h2, h3, h4, h5, h6, h7, h5]

set_option maxHeartbeats 2000000 in
/-- C8: refuted as stated.  `_normalize_text` is not idempotent: on
`"original newtaste"` the first pass removes the embedded `"new"`, and the
words `"original"` and `"taste"` reunite across the collapsed gap into the
stop phrase `"original taste"`, which the second pass then removes
entirely. -/
theorem C8_counterexample :
    normalize_text (normalize_text "original newtaste") ≠
      normalize_text "original newtaste" := by
  decide

theorem data_mk (l : List Char) : (String.mk l).data = l := rfl

theorem normalize_text_data (s : String) : (normalize_text s).data = normChars s.data := by
  unfold normalize_text
  exact data_mk _

/-- C8 (amended): `_normalize_text` is idempotent on every input whose
normalized form contains no promotional stop phrase; re-normalizing such
output returns it unchanged. -/
theorem C8_amended (s : String)
    (h : ∀ p ∈ promoStopWords, containsSub p.data (normalize_text s).data = false) :
    normalize_text (normalize_text s) = normalize_text s := by
  unfold normalize_text
  rw [data_mk]
  exact congrArg String.mk (normChars_idem_of_nopromo s.data
    (fun p hp => by rw [← normalize_text_data s]; exact h p hp))

set_option maxHeartbeats 2000000 in
/-- The amended C8 theorem applies to a concrete label. -/
theorem C8_amended_witness :
    (∀ p ∈ promoStopWords,
      containsSub p.data (normalize_text "Coca-Cola Zero 0.5L").data = false) ∧
    normalize_text (normalize_text "Coca-Cola Zero 0.5L") =
      normalize_text "Coca-Cola Zero 0.5L" :=
  ⟨by decide, C8_amended "Coca-Cola Zero 0.5L" (by decide)⟩
